import Mathlib

/-!
Triangular fuzzy numbers and their multiset (`fuzzy.h`)

A shallow embedding of `src/fuzzy.h`, in two readings of `real_t`.

Exact arithmetic (the namespaces `TriFuzzyNum` and `TriFuzzyNumSet`):

* `real_t` is idealised as an arbitrary linearly ordered field `R`; the
  theorems about the ranking instantiate it with `ℝ`.
* `sqrt` comes from `<cmath>` and is taken as a parameter `sqrt : R → R`;
  the theorems about the ranking instantiate it with `Real.sqrt`.

Binary64 (the namespaces `F64` and `Dbl`):

* `real_t` is `F64`, the IEEE 754 binary64 format of `double`: a NaN, the two
  infinities, and the finite values as signed whole multiples of `2^(-1074)`.
  Every operation of the source is one operation of `F64`, rounded to nearest
  with ties to even, in the order the source writes them; nothing is fused.
  The conversion of a `size_t` and of an integer literal is `F64.ofNat`.
* Each method is embedded a second time in `Dbl`, over `TriFuzzyNum F64` and
  `TriFuzzyNumSet F64`, with the same text as in the exact reading.
* What rounding, overflow or a NaN can change is settled on this reading: the
  running sums, `remove`, the arithmetic mean, the rank keys and their order.

In both readings:

* The `mutable` members `rank` and `is_rank_computed` are ordinary fields;
  a `const` method that writes them returns the updated object.
* A compound assignment receives its right operand by reference, so the
  operand may be the assigned object itself; `Operand` records which.
* `std::multiset<TriFuzzyNum>` is a list kept in the order of `operator<`;
  `insert` and `erase` follow the contract of the standard library. The
  comparisons the container makes fill the caches of the objects compared;
  that does not change the rank a later comparison reads
  (`rank_used_compute`, `Dbl.rank_used_stable`), so the elements are stored
  as they were passed. Where a rank key holds a NaN, `operator<` is no strict
  weak order and the standard leaves the container's behaviour open; the
  model then still inserts before the first element the new one is `<` of.
-/

namespace Fuzzy

variable {R : Type} [LinearOrderedField R]

/-- The class `TriFuzzyNum`: the cached rank, its validity flag and the
three components. -/
structure TriFuzzyNum (R : Type) where
  rank : R × R × R
  is_rank_computed : Bool
  l : R
  m : R
  u : R

/-- The right operand `rhs` of a compound assignment `x op= rhs`, received by
reference: either the assigned object `x` itself or another object. -/
inductive Operand (R : Type) where
  | self : Operand R
  | other : TriFuzzyNum R → Operand R

/-- The object an operand refers to, given the current state of the assigned
object. -/
def Operand.get (this : TriFuzzyNum R) : Operand R → TriFuzzyNum R
  | .self => this
  | .other v => v

/-- The call `std::sort(std::begin(args), std::end(args))` on the array
`{a, b, c}`: an insertion sort by `<`. -/
def sort3 (a b c : R) : R × R × R :=
  let p := if b < a then (b, a) else (a, b)
  if c < p.1 then (c, p.1, p.2)
  else if c < p.2 then (p.1, c, p.2)
  else (p.1, p.2, c)

/-- The comparison `x <=> y` of two `real_t`. -/
def three_way (x y : R) : Ordering :=
  if x < y then .lt else if y < x then .gt else .eq

/-- The comparison `<=>` of `std::tuple<real_t, real_t, real_t>`:
lexicographic, the first component that differs decides. -/
def tuple_cmp (p q : R × R × R) : Ordering :=
  match three_way p.1 q.1 with
  | .eq =>
    match three_way p.2.1 q.2.1 with
    | .eq => three_way p.2.2 q.2.2
    | c => c
  | c => c

namespace TriFuzzyNum

/-- The method `lower_value`. -/
def lower_value (t : TriFuzzyNum R) : R := t.l

/-- The method `modal_value`. -/
def modal_value (t : TriFuzzyNum R) : R := t.m

/-- The method `upper_value`. -/
def upper_value (t : TriFuzzyNum R) : R := t.u

/-- The method `adjust_values`: sorts the three components. -/
def adjust_values (t : TriFuzzyNum R) : TriFuzzyNum R :=
  let args := sort3 t.l t.m t.u
  { t with l := args.1, m := args.2.1, u := args.2.2 }

/-- The constructor `TriFuzzyNum(real_t a, real_t b, real_t c)`. -/
def new (a b c : R) : TriFuzzyNum R :=
  adjust_values { rank := (0, 0, 0), is_rank_computed := false, l := a, m := b, u := c }

/-- The method `compute_rank`: fills the cache from the current components. -/
def compute_rank (sqrt : R → R) (t : TriFuzzyNum R) : TriFuzzyNum R :=
  let z := (t.u - t.l) + sqrt (1 + (t.u - t.m) * (t.u - t.m)) +
    sqrt (1 + (t.m - t.l) * (t.m - t.l))
  let y := (t.u - t.l) / z
  let x := ((t.u - t.l) * t.m + sqrt (1 + (t.u - t.m) * (t.u - t.m)) * t.l +
    sqrt (1 + (t.m - t.l) * (t.m - t.l)) * t.u) / z
  { t with rank := (x - y / 2, 1 - y, t.m), is_rank_computed := true }

/-- The operator `+=`: three assignments in sequence, each reading the
operand as it is at that moment. -/
def op_add_assign (this : TriFuzzyNum R) (rhs : Operand R) : TriFuzzyNum R :=
  let t1 := { this with l := this.l + lower_value (rhs.get this) }
  let t2 := { t1 with m := t1.m + modal_value (rhs.get t1) }
  let t3 := { t2 with u := t2.u + upper_value (rhs.get t2) }
  { t3 with is_rank_computed := false }

/-- The operator `-=`: three assignments in sequence, each reading the
operand as it is at that moment. -/
def op_sub_assign (this : TriFuzzyNum R) (rhs : Operand R) : TriFuzzyNum R :=
  let t1 := { this with l := this.l - upper_value (rhs.get this) }
  let t2 := { t1 with m := t1.m - modal_value (rhs.get t1) }
  let t3 := { t2 with u := t2.u - lower_value (rhs.get t2) }
  { t3 with is_rank_computed := false }

/-- The operator `*=`: three assignments in sequence, then `adjust_values`. -/
def op_mul_assign (this : TriFuzzyNum R) (rhs : Operand R) : TriFuzzyNum R :=
  let t1 := { this with l := this.l * lower_value (rhs.get this) }
  let t2 := { t1 with m := t1.m * modal_value (rhs.get t1) }
  let t3 := { t2 with u := t2.u * upper_value (rhs.get t2) }
  adjust_values { t3 with is_rank_computed := false }

/-- The binary operator `+`: `result` is a fresh copy of the left operand, so
`other` is never `result`. -/
def op_add (this other : TriFuzzyNum R) : TriFuzzyNum R :=
  op_add_assign this (.other other)

/-- The binary operator `-`. -/
def op_sub (this other : TriFuzzyNum R) : TriFuzzyNum R :=
  op_sub_assign this (.other other)

/-- The binary operator `*`. -/
def op_mul (this other : TriFuzzyNum R) : TriFuzzyNum R :=
  op_mul_assign this (.other other)

/-- The operator `<=>`: fills the cache of either operand when it is not
valid, then compares the cached ranks. Returns the result together with the
two operands as the call leaves them. -/
def op_spaceship (sqrt : R → R) (this other : TriFuzzyNum R) :
    Ordering × TriFuzzyNum R × TriFuzzyNum R :=
  let a := if !this.is_rank_computed then compute_rank sqrt this else this
  let b := if !other.is_rank_computed then compute_rank sqrt other else other
  (tuple_cmp a.rank b.rank, a, b)

/-- The operator `<` the compiler derives from `<=>`. -/
def op_lt (sqrt : R → R) (this other : TriFuzzyNum R) : Bool :=
  (op_spaceship sqrt this other).1 == .lt

/-- The operator `>` the compiler derives from `<=>`. -/
def op_gt (sqrt : R → R) (this other : TriFuzzyNum R) : Bool :=
  (op_spaceship sqrt this other).1 == .gt

/-- The operator `==`: equality of the raw components. -/
def op_eq (this other : TriFuzzyNum R) : Bool :=
  decide (this.l = other.l) && decide (this.m = other.m) && decide (this.u = other.u)

/-- The operator `!=`. -/
def op_ne (this other : TriFuzzyNum R) : Bool :=
  !(op_eq this other)

end TriFuzzyNum

/-- The function `crisp_number`. -/
def crisp_number (v : R) : TriFuzzyNum R := TriFuzzyNum.new v v v

/-- The constant `crisp_zero`. -/
def crisp_zero : TriFuzzyNum R := crisp_number 0

/-- The equivalence `std::multiset` derives from its comparison `<`:
neither element is less than the other. -/
def multiset_equiv (sqrt : R → R) (a b : TriFuzzyNum R) : Bool :=
  !(TriFuzzyNum.op_lt sqrt a b) && !(TriFuzzyNum.op_lt sqrt b a)

/-- The method `std::multiset::insert`: the new element goes in front of the
first element greater than it, after its equivalents. -/
def multiset_insert (sqrt : R → R) (num : TriFuzzyNum R) :
    List (TriFuzzyNum R) → List (TriFuzzyNum R)
  | [] => [num]
  | x :: xs =>
    if TriFuzzyNum.op_lt sqrt num x then num :: x :: xs
    else x :: multiset_insert sqrt num xs

/-- The method `std::multiset::erase(key)`: removes every element equivalent
to `key` and returns what is left with the number of elements removed. -/
def multiset_erase (sqrt : R → R) (key : TriFuzzyNum R) (xs : List (TriFuzzyNum R)) :
    List (TriFuzzyNum R) × Nat :=
  (xs.filter (fun x => !(multiset_equiv sqrt x key)),
    (xs.filter (fun x => multiset_equiv sqrt x key)).length)

/-- The class `TriFuzzyNumSet`. -/
structure TriFuzzyNumSet (R : Type) where
  set : List (TriFuzzyNum R)
  sum_l : R
  sum_m : R
  sum_u : R

namespace TriFuzzyNumSet

/-- The default constructor `TriFuzzyNumSet()`. -/
def empty : TriFuzzyNumSet R :=
  { set := [], sum_l := 0, sum_m := 0, sum_u := 0 }

/-- The method `insert`. -/
def insert (sqrt : R → R) (s : TriFuzzyNumSet R) (num : TriFuzzyNum R) : TriFuzzyNumSet R :=
  { set := multiset_insert sqrt num s.set
    sum_l := s.sum_l + num.lower_value
    sum_m := s.sum_m + num.modal_value
    sum_u := s.sum_u + num.upper_value }

/-- The constructor `TriFuzzyNumSet(std::initializer_list<TriFuzzyNum>)`. -/
def of_list (sqrt : R → R) (args : List (TriFuzzyNum R)) : TriFuzzyNumSet R :=
  args.foldl (insert sqrt) empty

/-- The method `remove`. -/
def remove (sqrt : R → R) (s : TriFuzzyNumSet R) (num : TriFuzzyNum R) : TriFuzzyNumSet R :=
  let r := multiset_erase sqrt num s.set
  let erased_el : Nat := r.2
  { set := r.1
    sum_l := s.sum_l - (erased_el : R) * num.lower_value
    sum_m := s.sum_m - (erased_el : R) * num.modal_value
    sum_u := s.sum_u - (erased_el : R) * num.upper_value }

/-- The method `arithmetic_mean`; the exception `std::length_error` is the
error result. -/
def arithmetic_mean (s : TriFuzzyNumSet R) : Except String (TriFuzzyNum R) :=
  if s.set.isEmpty then
    .error "TriFuzzyNumSet::arithmetic_mean - the set is empty."
  else
    let set_size : Nat := s.set.length
    .ok (TriFuzzyNum.new (s.sum_l / (set_size : R)) (s.sum_m / (set_size : R))
      (s.sum_u / (set_size : R)))

end TriFuzzyNumSet

/-- The rank key `compute_rank` stores for the current components. -/
def TriFuzzyNum.rank_key (sqrt : R → R) (t : TriFuzzyNum R) : R × R × R :=
  (TriFuzzyNum.compute_rank sqrt t).rank

/-- The rank `operator<=>` reads for an operand: the cached one when the flag
is set, the freshly computed one otherwise. -/
def TriFuzzyNum.rank_used (sqrt : R → R) (t : TriFuzzyNum R) : R × R × R :=
  (if !t.is_rank_computed then TriFuzzyNum.compute_rank sqrt t else t).rank

/-- The cache of `t` is valid: when the flag is set, the cached rank is the key
of the current components. -/
def TriFuzzyNum.CacheOk (sqrt : R → R) (t : TriFuzzyNum R) : Prop :=
  t.is_rank_computed = true → t.rank = TriFuzzyNum.rank_key sqrt t

/-- The class invariant `lower <= modal <= upper`. -/
def TriFuzzyNum.Ascending (t : TriFuzzyNum R) : Prop :=
  t.l ≤ t.m ∧ t.m ≤ t.u

/-- Lexicographic "less than" on rank keys. -/
def lex_lt (p q : R × R × R) : Prop :=
  p.1 < q.1 ∨ (p.1 = q.1 ∧ (p.2.1 < q.2.1 ∨ (p.2.1 = q.2.1 ∧ p.2.2 < q.2.2)))

/-- The objects client code builds with the three-argument constructor and
changes by `+=`, `-=`, `*=` (the operand another such object or the object
itself) and by `compute_rank`, which a comparison calls. Copies and moves
leave the five members as they are. The method `adjust_values` is public as
well; a direct call changes nothing on an object with
`lower <= modal <= upper` (`adjust_values_of_ascending`) and is not among the
steps. -/
inductive TriFuzzyNum.Reachable (sqrt : R → R) : TriFuzzyNum R → Prop
  | new (a b c : R) : TriFuzzyNum.Reachable sqrt (TriFuzzyNum.new a b c)
  | add_assign (t v : TriFuzzyNum R) : TriFuzzyNum.Reachable sqrt t →
      TriFuzzyNum.Reachable sqrt v →
      TriFuzzyNum.Reachable sqrt (TriFuzzyNum.op_add_assign t (.other v))
  | add_assign_self (t : TriFuzzyNum R) : TriFuzzyNum.Reachable sqrt t →
      TriFuzzyNum.Reachable sqrt (TriFuzzyNum.op_add_assign t .self)
  | sub_assign (t v : TriFuzzyNum R) : TriFuzzyNum.Reachable sqrt t →
      TriFuzzyNum.Reachable sqrt v →
      TriFuzzyNum.Reachable sqrt (TriFuzzyNum.op_sub_assign t (.other v))
  | sub_assign_self (t : TriFuzzyNum R) : TriFuzzyNum.Reachable sqrt t →
      TriFuzzyNum.Reachable sqrt (TriFuzzyNum.op_sub_assign t .self)
  | mul_assign (t v : TriFuzzyNum R) : TriFuzzyNum.Reachable sqrt t →
      TriFuzzyNum.Reachable sqrt v →
      TriFuzzyNum.Reachable sqrt (TriFuzzyNum.op_mul_assign t (.other v))
  | mul_assign_self (t : TriFuzzyNum R) : TriFuzzyNum.Reachable sqrt t →
      TriFuzzyNum.Reachable sqrt (TriFuzzyNum.op_mul_assign t .self)
  | compute_rank (t : TriFuzzyNum R) : TriFuzzyNum.Reachable sqrt t →
      TriFuzzyNum.Reachable sqrt (TriFuzzyNum.compute_rank sqrt t)

/-- The sets client code can hold: the empty set or one built from an
initializer list, changed by `insert` and `remove`. -/
inductive TriFuzzyNumSet.Reachable (sqrt : R → R) : TriFuzzyNumSet R → Prop
  | empty : TriFuzzyNumSet.Reachable sqrt TriFuzzyNumSet.empty
  | of_list (args : List (TriFuzzyNum R)) :
      (∀ a ∈ args, TriFuzzyNum.Reachable sqrt a) →
      TriFuzzyNumSet.Reachable sqrt (TriFuzzyNumSet.of_list sqrt args)
  | insert (s : TriFuzzyNumSet R) (num : TriFuzzyNum R) :
      TriFuzzyNumSet.Reachable sqrt s → TriFuzzyNum.Reachable sqrt num →
      TriFuzzyNumSet.Reachable sqrt (TriFuzzyNumSet.insert sqrt s num)
  | remove (s : TriFuzzyNumSet R) (num : TriFuzzyNum R) :
      TriFuzzyNumSet.Reachable sqrt s → TriFuzzyNum.Reachable sqrt num →
      TriFuzzyNumSet.Reachable sqrt (TriFuzzyNumSet.remove sqrt s num)

/-- The denominator `z` of `compute_rank`, by which both `y` and `x` are
divided. -/
def TriFuzzyNum.rank_denominator (sqrt : R → R) (t : TriFuzzyNum R) : R :=
  (t.u - t.l) + sqrt (1 + (t.u - t.m) * (t.u - t.m)) +
    sqrt (1 + (t.m - t.l) * (t.m - t.l))

/-- The rank key in the words of the specification: with
`d1 = sqrt (1 + (u - m)²)`, `d2 = sqrt (1 + (m - l)²)`, `z = (u - l) + d1 + d2`,
`y = (u - l) / z` and `x = ((u - l) * m + d1 * l + d2 * u) / z` the key is
`(x - y / 2, 1 - y, m)`. -/
def spec_rank_key (sqrt : R → R) (l m u : R) : R × R × R :=
  let d1 := sqrt (1 + (u - m) ^ 2)
  let d2 := sqrt (1 + (m - l) ^ 2)
  let z := (u - l) + d1 + d2
  let y := (u - l) / z
  let x := ((u - l) * m + d1 * l + d2 * u) / z
  (x - y / 2, 1 - y, m)

/-- The comparison of two rank keys in the words of the specification:
the first component is primary, the second breaks ties, the third breaks
the remaining ties. -/
def spec_compare (p q : R × R × R) : Ordering :=
  if p.1 < q.1 then .lt
  else if q.1 < p.1 then .gt
  else if p.2.1 < q.2.1 then .lt
  else if q.2.1 < p.2.1 then .gt
  else if p.2.2 < q.2.2 then .lt
  else if q.2.2 < p.2.2 then .gt
  else .eq

/-! ## IEEE 754 binary64 -/

/-- A value of the C++ type `double` (IEEE 754 binary64): a NaN, an infinity
with its sign, or a finite value `(-1)^neg * k * 2^(-1074)`. Every finite
double is a whole multiple `k` of the smallest subnormal `2^(-1074)`. -/
inductive F64 where
  | nan : F64
  | inf (neg : Bool) : F64
  | fin (neg : Bool) (k : Nat) : F64
deriving DecidableEq

/-- The result of `<=>` on `double` and on tuples of them: the four values of
`std::partial_ordering`. -/
inductive PartialOrdering where
  | less : PartialOrdering
  | equivalent : PartialOrdering
  | greater : PartialOrdering
  | unordered : PartialOrdering
deriving DecidableEq

namespace F64

/-- Binary search for the number of binary digits of `n`: with `k` steps left
and `acc` digits already split off. -/
def bitlenAux : Nat → Nat → Nat → Nat
  | 0, acc, n => if n = 0 then acc else acc + 1
  | k + 1, acc, n =>
    if 2 ^ 2 ^ k ≤ n then bitlenAux k (acc + 2 ^ k) (n / 2 ^ 2 ^ k) else bitlenAux k acc n

/-- Number of binary digits of `n` (0 for 0), for `n < 2^8192`; the magnitudes
met in binary64 arithmetic have fewer than 4200 digits. -/
@[irreducible] def bitlen (n : Nat) : Nat := bitlenAux 13 0 n

/-- Newton iteration for the integer square root of `m`, downwards from a
start `x` that is not below it. -/
def isqrtAux (m : Nat) : Nat → Nat → Nat
  | 0, x => x
  | fuel + 1, x => if (x + m / x) / 2 < x then isqrtAux m fuel ((x + m / x) / 2) else x

/-- Integer square root: the largest `r` with `r * r <= m`. -/
@[irreducible] def isqrt (m : Nat) : Nat :=
  if m = 0 then 0 else isqrtAux m (bitlen m + 2) (2 ^ ((bitlen m + 1) / 2))

/-- The signed integer `(-1)^neg * k`. -/
def signed (neg : Bool) (k : Nat) : Int := if neg then -(k : Int) else (k : Int)

/-- The magnitude `N / D` rounded to the nearest multiple of `2^s`, ties to
the even multiple. -/
def roundAt (s N D : Nat) : Nat :=
  let d := D * 2 ^ s
  let n := N / d
  let r := N % d
  (if 2 * r < d then n else if 2 * r = d then (if n % 2 = 0 then n else n + 1) else n + 1) * 2 ^ s

/-- Rounding to nearest, ties to even, of the magnitude `N / D`, given in
units of `2^(-1074)`, with the sign `neg`: the spacing of the doubles around
a magnitude of `b` binary digits is `2^(b - 53)` units (one unit for the
subnormals), and a result of `2^1024` or more is an infinity. -/
@[irreducible] def round (neg : Bool) (N D : Nat) : F64 :=
  let k := roundAt (bitlen (N / D) - 53) N D
  if k < 2 ^ 2098 then fin neg k else inf neg

/-- The conversion of an unsigned integer (a `size_t`, or an integer written
as a literal) to `double`. -/
def ofNat (n : Nat) : F64 := round false (n * 2 ^ 1074) 1

/-- Unary minus. -/
def neg : F64 → F64
  | nan => nan
  | inf a => inf (!a)
  | fin a k => fin (!a) k

/-- The operator `+` on `double`. -/
def add : F64 → F64 → F64
  | nan, _ => nan
  | _, nan => nan
  | inf a, inf b => if a = b then inf a else nan
  | inf a, fin _ _ => inf a
  | fin _ _, inf b => inf b
  | fin a j, fin b k =>
    let s : Int := signed a j + signed b k
    if s = 0 then fin (a && b) 0 else round (decide (s < 0)) s.natAbs 1

/-- The operator `-` on `double`. -/
def sub (x y : F64) : F64 := add x (neg y)

/-- The operator `*` on `double`. -/
def mul : F64 → F64 → F64
  | nan, _ => nan
  | _, nan => nan
  | inf a, inf b => inf (xor a b)
  | inf a, fin b k => if k = 0 then nan else inf (xor a b)
  | fin a j, inf b => if j = 0 then nan else inf (xor a b)
  | fin a j, fin b k => round (xor a b) (j * k) (2 ^ 1074)

/-- The operator `/` on `double`. -/
def div : F64 → F64 → F64
  | nan, _ => nan
  | _, nan => nan
  | inf _, inf _ => nan
  | inf a, fin b _ => inf (xor a b)
  | fin a _, inf b => fin (xor a b) 0
  | fin a j, fin b k =>
    if k = 0 then (if j = 0 then nan else inf (xor a b))
    else round (xor a b) (j * 2 ^ 1074) k

/-- The function `sqrt` of `<cmath>`, correctly rounded. -/
def sqrt : F64 → F64
  | nan => nan
  | inf a => if a then nan else inf false
  | fin a k =>
    if k = 0 then fin a 0
    else if a then nan
    else
      let m := k * 2 ^ 1074
      let r0 := isqrt m
      let s := bitlen r0 - 53
      let n := r0 / 2 ^ s
      let h := (2 * n + 1) * (2 * n + 1) * 4 ^ s
      let n1 := if 4 * m < h then n else if 4 * m = h then (if n % 2 = 0 then n else n + 1)
        else n + 1
      fin false (n1 * 2 ^ s)

/-- The operator `<` on `double`. -/
def lt : F64 → F64 → Bool
  | nan, _ => false
  | _, nan => false
  | inf a, inf b => a && !b
  | inf a, fin _ _ => a
  | fin _ _, inf b => !b
  | fin a j, fin b k => decide (signed a j < signed b k)

/-- The operator `==` on `double`. -/
def eq : F64 → F64 → Bool
  | nan, _ => false
  | _, nan => false
  | inf a, inf b => a == b
  | inf _, fin _ _ => false
  | fin _ _, inf _ => false
  | fin a j, fin b k => decide (signed a j = signed b k)

/-- The operator `<=>` on `double`. -/
def three_way (x y : F64) : PartialOrdering :=
  if lt x y then .less
  else if lt y x then .greater
  else if eq x y then .equivalent
  else .unordered

end F64

/-! ## The program over binary64 -/

namespace Dbl

/-- The object an operand refers to, given the current state of the assigned
object. -/
def operand_get (this : TriFuzzyNum F64) : Operand F64 → TriFuzzyNum F64
  | .self => this
  | .other v => v

/-- The call `std::sort(std::begin(args), std::end(args))` on the array
`{a, b, c}` of doubles: an insertion sort by `<`. -/
def sort3 (a b c : F64) : F64 × F64 × F64 :=
  let p := if F64.lt b a then (b, a) else (a, b)
  if F64.lt c p.1 then (c, p.1, p.2)
  else if F64.lt c p.2 then (p.1, c, p.2)
  else (p.1, p.2, c)

/-- The comparison `<=>` of `std::tuple<real_t, real_t, real_t>`: the first
component whose comparison is not `equivalent` decides. -/
def tuple_cmp (p q : F64 × F64 × F64) : PartialOrdering :=
  match F64.three_way p.1 q.1 with
  | .equivalent =>
    match F64.three_way p.2.1 q.2.1 with
    | .equivalent => F64.three_way p.2.2 q.2.2
    | c => c
  | c => c

/-- The method `lower_value`. -/
def lower_value (t : TriFuzzyNum F64) : F64 := t.l

/-- The method `modal_value`. -/
def modal_value (t : TriFuzzyNum F64) : F64 := t.m

/-- The method `upper_value`. -/
def upper_value (t : TriFuzzyNum F64) : F64 := t.u

/-- The method `adjust_values`. -/
def adjust_values (t : TriFuzzyNum F64) : TriFuzzyNum F64 :=
  let args := sort3 t.l t.m t.u
  { t with l := args.1, m := args.2.1, u := args.2.2 }

/-- The constructor `TriFuzzyNum(real_t a, real_t b, real_t c)`. -/
def new (a b c : F64) : TriFuzzyNum F64 :=
  adjust_values
    { rank := (F64.ofNat 0, F64.ofNat 0, F64.ofNat 0), is_rank_computed := false,
      l := a, m := b, u := c }

/-- The method `compute_rank`, every operation rounded as on `double`. -/
def compute_rank (t : TriFuzzyNum F64) : TriFuzzyNum F64 :=
  let z := F64.add
    (F64.add (F64.sub t.u t.l)
      (F64.sqrt (F64.add (F64.ofNat 1) (F64.mul (F64.sub t.u t.m) (F64.sub t.u t.m)))))
    (F64.sqrt (F64.add (F64.ofNat 1) (F64.mul (F64.sub t.m t.l) (F64.sub t.m t.l))))
  let y := F64.div (F64.sub t.u t.l) z
  let x := F64.div
    (F64.add
      (F64.add (F64.mul (F64.sub t.u t.l) t.m)
        (F64.mul (F64.sqrt (F64.add (F64.ofNat 1) (F64.mul (F64.sub t.u t.m) (F64.sub t.u t.m))))
          t.l))
      (F64.mul (F64.sqrt (F64.add (F64.ofNat 1) (F64.mul (F64.sub t.m t.l) (F64.sub t.m t.l))))
        t.u))
    z
  { t with
    rank := (F64.sub x (F64.div y (F64.ofNat 2)), F64.sub (F64.ofNat 1) y, t.m),
    is_rank_computed := true }

/-- The operator `+=`. -/
def op_add_assign (this : TriFuzzyNum F64) (rhs : Operand F64) : TriFuzzyNum F64 :=
  let t1 := { this with l := F64.add this.l (lower_value (operand_get this rhs)) }
  let t2 := { t1 with m := F64.add t1.m (modal_value (operand_get t1 rhs)) }
  let t3 := { t2 with u := F64.add t2.u (upper_value (operand_get t2 rhs)) }
  { t3 with is_rank_computed := false }

/-- The operator `-=`. -/
def op_sub_assign (this : TriFuzzyNum F64) (rhs : Operand F64) : TriFuzzyNum F64 :=
  let t1 := { this with l := F64.sub this.l (upper_value (operand_get this rhs)) }
  let t2 := { t1 with m := F64.sub t1.m (modal_value (operand_get t1 rhs)) }
  let t3 := { t2 with u := F64.sub t2.u (lower_value (operand_get t2 rhs)) }
  { t3 with is_rank_computed := false }

/-- The operator `*=`. -/
def op_mul_assign (this : TriFuzzyNum F64) (rhs : Operand F64) : TriFuzzyNum F64 :=
  let t1 := { this with l := F64.mul this.l (lower_value (operand_get this rhs)) }
  let t2 := { t1 with m := F64.mul t1.m (modal_value (operand_get t1 rhs)) }
  let t3 := { t2 with u := F64.mul t2.u (upper_value (operand_get t2 rhs)) }
  adjust_values { t3 with is_rank_computed := false }

/-- The binary operator `+`. -/
def op_add (this other : TriFuzzyNum F64) : TriFuzzyNum F64 :=
  op_add_assign this (.other other)

/-- The binary operator `-`. -/
def op_sub (this other : TriFuzzyNum F64) : TriFuzzyNum F64 :=
  op_sub_assign this (.other other)

/-- The binary operator `*`. -/
def op_mul (this other : TriFuzzyNum F64) : TriFuzzyNum F64 :=
  op_mul_assign this (.other other)

/-- The operator `<=>`: the result with the two operands as the call leaves
them. -/
def op_spaceship (this other : TriFuzzyNum F64) :
    PartialOrdering × TriFuzzyNum F64 × TriFuzzyNum F64 :=
  let a := if !this.is_rank_computed then compute_rank this else this
  let b := if !other.is_rank_computed then compute_rank other else other
  (tuple_cmp a.rank b.rank, a, b)

/-- The operator `<` the compiler derives from `<=>`. -/
def op_lt (this other : TriFuzzyNum F64) : Bool :=
  (op_spaceship this other).1 == .less

/-- The operator `>` the compiler derives from `<=>`. -/
def op_gt (this other : TriFuzzyNum F64) : Bool :=
  (op_spaceship this other).1 == .greater

/-- The operator `==`. -/
def op_eq (this other : TriFuzzyNum F64) : Bool :=
  F64.eq this.l other.l && F64.eq this.m other.m && F64.eq this.u other.u

/-- The function `crisp_number`. -/
def crisp_number (v : F64) : TriFuzzyNum F64 := new v v v

/-- The constant `crisp_zero`. -/
def crisp_zero : TriFuzzyNum F64 := crisp_number (F64.ofNat 0)

/-- The equivalence `std::multiset` derives from `<`. -/
def multiset_equiv (a b : TriFuzzyNum F64) : Bool :=
  !(op_lt a b) && !(op_lt b a)

/-- The method `std::multiset::insert`. -/
def multiset_insert (num : TriFuzzyNum F64) : List (TriFuzzyNum F64) → List (TriFuzzyNum F64)
  | [] => [num]
  | x :: xs => if op_lt num x then num :: x :: xs else x :: multiset_insert num xs

/-- The method `std::multiset::erase(key)`. -/
def multiset_erase (key : TriFuzzyNum F64) (xs : List (TriFuzzyNum F64)) :
    List (TriFuzzyNum F64) × Nat :=
  (xs.filter (fun x => !(multiset_equiv x key)),
    (xs.filter (fun x => multiset_equiv x key)).length)

/-- The default constructor `TriFuzzyNumSet()`. -/
def empty : TriFuzzyNumSet F64 :=
  { set := [], sum_l := F64.ofNat 0, sum_m := F64.ofNat 0, sum_u := F64.ofNat 0 }

/-- The method `TriFuzzyNumSet::insert`. -/
def insert (s : TriFuzzyNumSet F64) (num : TriFuzzyNum F64) : TriFuzzyNumSet F64 :=
  { set := multiset_insert num s.set
    sum_l := F64.add s.sum_l (lower_value num)
    sum_m := F64.add s.sum_m (modal_value num)
    sum_u := F64.add s.sum_u (upper_value num) }

/-- The constructor `TriFuzzyNumSet(std::initializer_list<TriFuzzyNum>)`. -/
def of_list (args : List (TriFuzzyNum F64)) : TriFuzzyNumSet F64 :=
  args.foldl insert empty

/-- The method `TriFuzzyNumSet::remove`. -/
def remove (s : TriFuzzyNumSet F64) (num : TriFuzzyNum F64) : TriFuzzyNumSet F64 :=
  let r := multiset_erase num s.set
  let erased_el : Nat := r.2
  { set := r.1
    sum_l := F64.sub s.sum_l (F64.mul (F64.ofNat erased_el) (lower_value num))
    sum_m := F64.sub s.sum_m (F64.mul (F64.ofNat erased_el) (modal_value num))
    sum_u := F64.sub s.sum_u (F64.mul (F64.ofNat erased_el) (upper_value num)) }

/-- The method `TriFuzzyNumSet::arithmetic_mean`. -/
def arithmetic_mean (s : TriFuzzyNumSet F64) : Except String (TriFuzzyNum F64) :=
  if s.set.isEmpty then
    .error "TriFuzzyNumSet::arithmetic_mean - the set is empty."
  else
    let set_size : Nat := s.set.length
    .ok (new (F64.div s.sum_l (F64.ofNat set_size)) (F64.div s.sum_m (F64.ofNat set_size))
      (F64.div s.sum_u (F64.ofNat set_size)))

end Dbl

/-! ## Predicates on doubles used in the statements -/

/-- The value of a finite double in units of `2^(-1074)`; 0 for a NaN or an
infinity. -/
def F64.units : F64 → Int
  | .fin a k => F64.signed a k
  | _ => 0

/-- The double is neither a NaN nor an infinity. -/
def F64.isFinite : F64 → Bool
  | .fin _ _ => true
  | _ => false

/-- The double is a NaN. -/
def F64.isNaN : F64 → Bool
  | .nan => true
  | _ => false

/-- The class of a double on the extended number line: -1 for `-inf`, 1 for
`+inf`, 0 otherwise. -/
def F64.cls : F64 → Int
  | .inf true => -1
  | .inf false => 1
  | _ => 0

/-- The position of a double that is not a NaN on the extended number line:
its class, then its value. The two zeros have the same position. -/
def F64.pos (x : F64) : Lex (Int × Int) := toLex (x.cls, x.units)

/-- The positions of the three components of a rank key. -/
def F64.pos3 (p : F64 × F64 × F64) : Lex (Int × Int) × Lex (Int × Int) × Lex (Int × Int) :=
  (p.1.pos, p.2.1.pos, p.2.2.pos)

/-- Lexicographic "less than" on triples. -/
def lex3 {α : Type} [LT α] (p q : α × α × α) : Prop :=
  p.1 < q.1 ∨ (p.1 = q.1 ∧ (p.2.1 < q.2.1 ∨ (p.2.1 = q.2.1 ∧ p.2.2 < q.2.2)))

/-- The magnitude `k` (in units of `2^(-1074)`) is that of a double: it is a
multiple of the spacing `2^(b - 53)` of the doubles with `b` binary digits,
and it is below `2^1024`. -/
abbrev F64.Representable (k : Nat) : Prop :=
  k % 2 ^ (F64.bitlen k - 53) = 0 ∧ k < 2 ^ 2098

/-- The value is a double: a finite one has a representable magnitude. -/
def F64.IsDouble : F64 → Prop
  | .fin _ k => F64.Representable k
  | _ => True

instance F64.decidableIsDouble : (x : F64) → Decidable x.IsDouble
  | .nan => isTrue trivial
  | .inf _ => isTrue trivial
  | .fin _ k => (inferInstance : Decidable (F64.Representable k))

/-- The sum `x + y` is computed without rounding error. -/
abbrev F64.AddExact (x y : F64) : Prop :=
  (F64.add x y).isFinite = true ∧ (F64.add x y).units = x.units + y.units

namespace Dbl

/-- The rank `operator<=>` reads for an operand: the cached one when the flag
is set, the freshly computed one otherwise. -/
def rank_used (t : TriFuzzyNum F64) : F64 × F64 × F64 :=
  (if !t.is_rank_computed then compute_rank t else t).rank

/-- No component of the rank key is a NaN. -/
abbrev NoNaN (p : F64 × F64 × F64) : Prop :=
  p.1.isNaN = false ∧ p.2.1.isNaN = false ∧ p.2.2.isNaN = false

/-- The three components are finite. -/
abbrev Finite (t : TriFuzzyNum F64) : Prop :=
  t.l.isFinite = true ∧ t.m.isFinite = true ∧ t.u.isFinite = true

end Dbl

/-- The update `s - n * v` of a running sum by `remove` is computed without
rounding error. -/
abbrev F64.MulSubExact (s : F64) (n : Nat) (v : F64) : Prop :=
  (F64.sub s (F64.mul (F64.ofNat n) v)).isFinite = true ∧
    (F64.sub s (F64.mul (F64.ofNat n) v)).units = s.units - (n : Int) * v.units

/-- The sets obtained from the empty one by `insert` and `remove` calls in
which no update of a running sum is rounded and every element `remove(num)`
erases is raw-equal to `num`. -/
inductive Dbl.ExactRun : TriFuzzyNumSet F64 → Prop
  | empty : Dbl.ExactRun Dbl.empty
  | insert {s : TriFuzzyNumSet F64} (num : TriFuzzyNum F64) :
      Dbl.ExactRun s →
      F64.AddExact s.sum_l (Dbl.lower_value num) →
      F64.AddExact s.sum_m (Dbl.modal_value num) →
      F64.AddExact s.sum_u (Dbl.upper_value num) →
      Dbl.ExactRun (Dbl.insert s num)
  | remove {s : TriFuzzyNumSet F64} (num : TriFuzzyNum F64) :
      Dbl.ExactRun s →
      (∀ x ∈ s.set, Dbl.multiset_equiv x num = true → Dbl.op_eq x num = true) →
      F64.MulSubExact s.sum_l (Dbl.multiset_erase num s.set).2 (Dbl.lower_value num) →
      F64.MulSubExact s.sum_m (Dbl.multiset_erase num s.set).2 (Dbl.modal_value num) →
      F64.MulSubExact s.sum_u (Dbl.multiset_erase num s.set).2 (Dbl.upper_value num) →
      Dbl.ExactRun (Dbl.remove s num)

/-- The operator `<=` on `double`. -/
def F64.le (x y : F64) : Bool := F64.lt x y || F64.eq x y

/-- The class invariant `lower <= modal <= upper`, as the doubles compare. -/
abbrev Dbl.Ascending (t : TriFuzzyNum F64) : Prop :=
  F64.le t.l t.m = true ∧ F64.le t.m t.u = true

open TriFuzzyNum

/-! ## The comparison of rank keys -/

theorem three_way_eq_lt (x y : R) : three_way x y = .lt ↔ x < y := by
  unfold three_way
  split_ifs with h1 h2 <;> simp [h1]

theorem three_way_eq_gt (x y : R) : three_way x y = .gt ↔ y < x := by
  unfold three_way
  split_ifs with h1 h2
  · simp [h1.le]
  · simp [h2]
  · simp [h2]

theorem three_way_eq_eq (x y : R) : three_way x y = .eq ↔ x = y := by
  unfold three_way
  split_ifs with h1 h2
  · simp [h1.ne]
  · simp [h2.ne']
  · simp; exact le_antisymm (not_lt.mp h2) (not_lt.mp h1)

theorem three_way_of_lt {x y : R} (h : x < y) : three_way x y = .lt :=
  (three_way_eq_lt x y).mpr h

theorem three_way_of_gt {x y : R} (h : y < x) : three_way x y = .gt :=
  (three_way_eq_gt x y).mpr h

theorem three_way_self (x : R) : three_way x x = .eq :=
  (three_way_eq_eq x x).mpr rfl

theorem tuple_cmp_eq_lt (p q : R × R × R) : tuple_cmp p q = .lt ↔ lex_lt p q := by
  obtain ⟨p1, p2, p3⟩ := p
  obtain ⟨q1, q2, q3⟩ := q
  simp only [tuple_cmp, lex_lt]
  rcases lt_trichotomy p1 q1 with h1 | h1 | h1
  · simp [three_way_of_lt h1, h1]
  · subst h1
    rcases lt_trichotomy p2 q2 with h2 | h2 | h2
    · simp [three_way_self, three_way_of_lt h2, h2]
    · subst h2
      simp [three_way_self, three_way_eq_lt]
    · simp [three_way_self, three_way_of_gt h2, h2.le, h2.ne']
  · simp [three_way_of_gt h1, h1.le, h1.ne']

theorem tuple_cmp_eq_gt (p q : R × R × R) : tuple_cmp p q = .gt ↔ lex_lt q p := by
  obtain ⟨p1, p2, p3⟩ := p
  obtain ⟨q1, q2, q3⟩ := q
  simp only [tuple_cmp, lex_lt]
  rcases lt_trichotomy p1 q1 with h1 | h1 | h1
  · simp [three_way_of_lt h1, h1.le, h1.ne']
  · subst h1
    rcases lt_trichotomy p2 q2 with h2 | h2 | h2
    · simp [three_way_self, three_way_of_lt h2, h2.le, h2.ne']
    · subst h2
      simp [three_way_self, three_way_eq_gt]
    · simp [three_way_self, three_way_of_gt h2, h2]
  · simp [three_way_of_gt h1, h1]

theorem tuple_cmp_eq_eq (p q : R × R × R) : tuple_cmp p q = .eq ↔ p = q := by
  obtain ⟨p1, p2, p3⟩ := p
  obtain ⟨q1, q2, q3⟩ := q
  simp only [tuple_cmp]
  rcases lt_trichotomy p1 q1 with h1 | h1 | h1
  · simp [three_way_of_lt h1, h1.ne]
  · subst h1
    rcases lt_trichotomy p2 q2 with h2 | h2 | h2
    · simp [three_way_self, three_way_of_lt h2, h2.ne]
    · subst h2
      simp [three_way_self, three_way_eq_eq]
    · simp [three_way_self, three_way_of_gt h2, h2.ne']
  · simp [three_way_of_gt h1, h1.ne']

theorem lex_lt_irrefl (p : R × R × R) : ¬ lex_lt p p := by
  simp [lex_lt]

theorem lex_lt_asymm {p q : R × R × R} (h : lex_lt p q) : ¬ lex_lt q p := by
  unfold lex_lt at *
  rcases h with h | ⟨e, h | ⟨e2, h⟩⟩
  · simp [h.le, h.ne']
  · simp [e, h.le, h.ne']
  · simp [e, e2, h.le]

theorem lex_lt_trans {p q r : R × R × R} (h1 : lex_lt p q) (h2 : lex_lt q r) : lex_lt p r := by
  unfold lex_lt at *
  rcases h1 with h | ⟨e, h | ⟨e2, h⟩⟩ <;> rcases h2 with g | ⟨f, g | ⟨f2, g⟩⟩
  · exact Or.inl (lt_trans h g)
  · exact Or.inl (f ▸ h)
  · exact Or.inl (f ▸ h)
  · exact Or.inl (e ▸ g)
  · exact Or.inr ⟨e.trans f, Or.inl (lt_trans h g)⟩
  · exact Or.inr ⟨e.trans f, Or.inl (f2 ▸ h)⟩
  · exact Or.inl (e ▸ g)
  · exact Or.inr ⟨e.trans f, Or.inl (e2 ▸ g)⟩
  · exact Or.inr ⟨e.trans f, Or.inr ⟨e2.trans f2, lt_trans h g⟩⟩

theorem lex_lt_total (p q : R × R × R) : lex_lt p q ∨ p = q ∨ lex_lt q p := by
  obtain ⟨p1, p2, p3⟩ := p
  obtain ⟨q1, q2, q3⟩ := q
  simp only [lex_lt, Prod.mk.injEq]
  rcases lt_trichotomy p1 q1 with h1 | h1 | h1
  · exact Or.inl (Or.inl h1)
  · rcases lt_trichotomy p2 q2 with h2 | h2 | h2
    · exact Or.inl (Or.inr ⟨h1, Or.inl h2⟩)
    · rcases lt_trichotomy p3 q3 with h3 | h3 | h3
      · exact Or.inl (Or.inr ⟨h1, Or.inr ⟨h2, h3⟩⟩)
      · exact Or.inr (Or.inl ⟨h1, h2, h3⟩)
      · exact Or.inr (Or.inr (Or.inr ⟨h1.symm, Or.inr ⟨h2.symm, h3⟩⟩))
    · exact Or.inr (Or.inr (Or.inr ⟨h1.symm, Or.inl h2⟩))
  · exact Or.inr (Or.inr (Or.inl h1))

/-! ## The comparison operators and the cache -/

theorem op_spaceship_result (sqrt : R → R) (a b : TriFuzzyNum R) :
    (op_spaceship sqrt a b).1 = tuple_cmp (rank_used sqrt a) (rank_used sqrt b) := rfl

theorem op_lt_iff (sqrt : R → R) (a b : TriFuzzyNum R) :
    op_lt sqrt a b = true ↔ lex_lt (rank_used sqrt a) (rank_used sqrt b) := by
  rw [← tuple_cmp_eq_lt, op_lt, op_spaceship_result]
  cases tuple_cmp (rank_used sqrt a) (rank_used sqrt b) <;> decide

theorem op_gt_iff (sqrt : R → R) (a b : TriFuzzyNum R) :
    op_gt sqrt a b = true ↔ lex_lt (rank_used sqrt b) (rank_used sqrt a) := by
  rw [← tuple_cmp_eq_gt, op_gt, op_spaceship_result]
  cases tuple_cmp (rank_used sqrt a) (rank_used sqrt b) <;> decide

theorem multiset_equiv_iff (sqrt : R → R) (a b : TriFuzzyNum R) :
    multiset_equiv sqrt a b = true ↔ rank_used sqrt a = rank_used sqrt b := by
  simp only [multiset_equiv, Bool.and_eq_true, Bool.not_eq_true', ← Bool.not_eq_true, op_lt_iff]
  constructor
  · rintro ⟨h1, h2⟩
    rcases lex_lt_total (rank_used sqrt a) (rank_used sqrt b) with h | h | h
    · exact absurd h h1
    · exact h
    · exact absurd h h2
  · intro h
    rw [h]
    exact ⟨lex_lt_irrefl _, lex_lt_irrefl _⟩

theorem rank_key_compute_rank (sqrt : R → R) (t : TriFuzzyNum R) :
    rank_key sqrt (compute_rank sqrt t) = rank_key sqrt t := rfl

theorem rank_used_of_cacheOk {sqrt : R → R} {t : TriFuzzyNum R} (h : CacheOk sqrt t) :
    rank_used sqrt t = rank_key sqrt t := by
  unfold rank_used
  cases hf : t.is_rank_computed
  · rfl
  · simpa using h hf

theorem adjust_values_flag (t : TriFuzzyNum R) :
    (adjust_values t).is_rank_computed = t.is_rank_computed := rfl

theorem TriFuzzyNum.Reachable.cacheOk {sqrt : R → R} {t : TriFuzzyNum R}
    (h : TriFuzzyNum.Reachable sqrt t) :
    CacheOk sqrt t := by
  induction h with
  | compute_rank t _ _ => intro _; rfl
  | _ => intro hf; exact absurd hf (by simp [TriFuzzyNum.new, op_add_assign, op_sub_assign, op_mul_assign, adjust_values])

/-! ## The ranking formula over the reals -/

theorem hyp_mul_self (a : ℝ) : Real.sqrt (1 + a * a) * Real.sqrt (1 + a * a) = 1 + a * a :=
  Real.mul_self_sqrt (by nlinarith [mul_self_nonneg a])

theorem hyp_pos (a : ℝ) : 0 < Real.sqrt (1 + a * a) :=
  Real.sqrt_pos.mpr (by nlinarith [mul_self_nonneg a])

theorem hyp_sub_pos (a : ℝ) : 0 < Real.sqrt (1 + a * a) - a := by
  have h1 := hyp_mul_self a
  have h2 := hyp_pos a
  by_contra h
  push_neg at h
  have h3 : Real.sqrt (1 + a * a) ≤ a := by linarith
  nlinarith

theorem hyp_add_pos (a : ℝ) : 0 < Real.sqrt (1 + a * a) + a := by
  have h1 := hyp_mul_self a
  have h2 := hyp_pos a
  by_contra h
  push_neg at h
  have h3 : Real.sqrt (1 + a * a) ≤ -a := by linarith
  nlinarith

theorem rank_denominator_pos (l m u : ℝ) :
    0 < (u - l) + Real.sqrt (1 + (u - m) * (u - m)) + Real.sqrt (1 + (m - l) * (m - l)) := by
  have h1 := hyp_add_pos (u - m)
  have h2 := hyp_add_pos (m - l)
  linarith

/-- Closed form of the rank key: with `p = sqrt (1 + (m - l)²) - (m - l)` and
`q = sqrt (1 + (u - m)²) - (u - m)` the key is
`(m + (p - q) / 2 - (1 - p * q) / 4, (1 + p * q) / 2, m)`. -/
theorem rank_key_closed_form (t : TriFuzzyNum ℝ) :
    rank_key Real.sqrt t =
      (t.m + ((Real.sqrt (1 + (t.m - t.l) * (t.m - t.l)) - (t.m - t.l)) -
          (Real.sqrt (1 + (t.u - t.m) * (t.u - t.m)) - (t.u - t.m))) / 2 -
        (1 - (Real.sqrt (1 + (t.m - t.l) * (t.m - t.l)) - (t.m - t.l)) *
          (Real.sqrt (1 + (t.u - t.m) * (t.u - t.m)) - (t.u - t.m))) / 4,
       (1 + (Real.sqrt (1 + (t.m - t.l) * (t.m - t.l)) - (t.m - t.l)) *
          (Real.sqrt (1 + (t.u - t.m) * (t.u - t.m)) - (t.u - t.m))) / 2,
       t.m) := by
  obtain ⟨rk, fl, l, m, u⟩ := t
  have hz := rank_denominator_pos l m u
  have hA := hyp_mul_self (m - l)
  have hB := hyp_mul_self (u - m)
  simp only [rank_key, compute_rank]
  generalize Real.sqrt (1 + (m - l) * (m - l)) = dA at *
  generalize Real.sqrt (1 + (u - m) * (u - m)) = dB at *
  have hy : (u - l) / (u - l + dB + dA) = (1 - (dA - (m - l)) * (dB - (u - m))) / 2 := by
    rw [div_eq_iff hz.ne']
    linear_combination ((dB - (u - m)) / 2) * hA + ((dA - (m - l)) / 2) * hB
  have hx : ((u - l) * m + dB * l + dA * u) / (u - l + dB + dA) =
      m + ((dA - (m - l)) - (dB - (u - m))) / 2 := by
    rw [div_eq_iff hz.ne']
    linear_combination (-1 / 2) * hA + (1 / 2) * hB
  rw [hy, hx]
  refine Prod.ext ?_ (Prod.ext ?_ rfl)
  · simp only; ring
  · simp only; ring

/-- Over the reals the rank key determines the three components. -/
theorem rank_key_injective (a b : TriFuzzyNum ℝ)
    (h : rank_key Real.sqrt a = rank_key Real.sqrt b) :
    a.l = b.l ∧ a.m = b.m ∧ a.u = b.u := by
  rw [rank_key_closed_form, rank_key_closed_form] at h
  obtain ⟨rk, fl, l, m, u⟩ := a
  obtain ⟨rk', fl', l', m', u'⟩ := b
  simp only [Prod.mk.injEq] at h
  obtain ⟨h1, h2, h3⟩ := h
  subst h3
  have pA := hyp_sub_pos (m - l)
  have pB := hyp_sub_pos (u - m)
  have pA' := hyp_sub_pos (m - l')
  have pB' := hyp_sub_pos (u' - m)
  have sA := hyp_mul_self (m - l)
  have sB := hyp_mul_self (u - m)
  have sA' := hyp_mul_self (m - l')
  have sB' := hyp_mul_self (u' - m)
  generalize Real.sqrt (1 + (m - l) * (m - l)) = dA at *
  generalize Real.sqrt (1 + (u - m) * (u - m)) = dB at *
  generalize Real.sqrt (1 + (m - l') * (m - l')) = dA' at *
  generalize Real.sqrt (1 + (u' - m) * (u' - m)) = dB' at *
  -- the products and the differences of the two pairs agree
  have hprod : (dA - (m - l)) * (dB - (u - m)) = (dA' - (m - l')) * (dB' - (u' - m)) := by
    linarith
  have hdiff : (dA - (m - l)) - (dB - (u - m)) = (dA' - (m - l')) - (dB' - (u' - m)) := by
    linarith
  have hp : dA - (m - l) = dA' - (m - l') := by
    by_contra hne
    have hfac : ((dA - (m - l)) - (dA' - (m - l'))) *
        ((dA - (m - l)) + (dB' - (u' - m))) = 0 := by
      linear_combination hprod + (dA - (m - l)) * hdiff
    rcases mul_eq_zero.mp hfac with h0 | h0
    · exact hne (by linarith)
    · linarith
  have hq : dB - (u - m) = dB' - (u' - m) := by linarith
  -- each factor determines its argument
  have hl : m - l = m - l' := by
    have e1 : (dA - (m - l)) * (dA + (m - l)) = 1 := by linear_combination sA
    have e2 : (dA' - (m - l')) * (dA' + (m - l')) = 1 := by linear_combination sA'
    rw [← hp] at e2
    have e3 : dA + (m - l) = dA' + (m - l') :=
      mul_left_cancel₀ pA.ne' (e1.trans e2.symm)
    linarith
  have hu : u - m = u' - m := by
    have e1 : (dB - (u - m)) * (dB + (u - m)) = 1 := by linear_combination sB
    have e2 : (dB' - (u' - m)) * (dB' + (u' - m)) = 1 := by linear_combination sB'
    rw [← hq] at e2
    have e3 : dB + (u - m) = dB' + (u' - m) :=
      mul_left_cancel₀ pB.ne' (e1.trans e2.symm)
    linarith
  exact ⟨by linarith, rfl, by linarith⟩

/-! ## Normalisation of the three components -/

theorem sort3_spec (a b c : R) :
    sort3 a b c = (min a (min b c), max (min a b) (min (max a b) c), max a (max b c)) := by
  unfold sort3
  rcases lt_or_le b a with h1 | h1
  · rw [if_pos h1]
    simp only
    rcases lt_or_le c b with h2 | h2
    · rw [if_pos h2]
      refine Prod.ext ?_ (Prod.ext ?_ ?_) <;>
        simp [min_eq_right h1.le, max_eq_left h1.le, min_eq_right h2.le, max_eq_left h2.le,
          min_eq_right (h2.trans h1).le, max_eq_left (h2.trans h1).le, h1.le]
    · rw [if_neg (not_lt.mpr h2)]
      rcases lt_or_le c a with h3 | h3
      · rw [if_pos h3]
        refine Prod.ext ?_ (Prod.ext ?_ ?_) <;>
          simp [min_eq_right h1.le, max_eq_left h1.le, min_eq_left h2, max_eq_right h2,
            min_eq_right h3.le, max_eq_left h3.le, h1.le, h2]
      · rw [if_neg (not_lt.mpr h3)]
        refine Prod.ext ?_ (Prod.ext ?_ ?_) <;>
          simp [min_eq_right h1.le, max_eq_left h1.le, min_eq_left h2, max_eq_right h2,
            min_eq_left h3, max_eq_right h3, h1.le, h2, h3]
  · rw [if_neg (not_lt.mpr h1)]
    simp only
    rcases lt_or_le c a with h2 | h2
    · rw [if_pos h2]
      refine Prod.ext ?_ (Prod.ext ?_ ?_) <;>
        simp [min_eq_left h1, max_eq_right h1, min_eq_right h2.le, max_eq_left h2.le,
          min_eq_right (h2.trans_le h1).le, max_eq_left (h2.trans_le h1).le, h1, h2.le]
    · rw [if_neg (not_lt.mpr h2)]
      rcases lt_or_le c b with h3 | h3
      · rw [if_pos h3]
        refine Prod.ext ?_ (Prod.ext ?_ ?_) <;>
          simp [min_eq_left h1, max_eq_right h1, min_eq_left h2, max_eq_right h2,
            min_eq_right h3.le, max_eq_left h3.le, h1, h2, h3.le]
      · rw [if_neg (not_lt.mpr h3)]
        refine Prod.ext ?_ (Prod.ext ?_ ?_) <;>
          simp [min_eq_left h1, max_eq_right h1, min_eq_left h2, max_eq_right h2,
            min_eq_left h3, max_eq_right h3, h1, h2, h3, h1.trans h3]

theorem median_swap_right (a b c : R) :
    max (min a c) (min (max a c) b) = max (min a b) (min (max a b) c) := by
  rcases le_total a b with h1 | h1 <;> rcases le_total b c with h2 | h2 <;>
    rcases le_total a c with h3 | h3 <;>
    simp [min_eq_left, min_eq_right, max_eq_left, max_eq_right, *] <;>
    first
      | exact le_antisymm (by assumption) (by assumption)
      | (apply le_antisymm <;> first | assumption | exact le_trans (by assumption) (by assumption))

theorem sort3_ascending (a b c : R) :
    (sort3 a b c).1 ≤ (sort3 a b c).2.1 ∧ (sort3 a b c).2.1 ≤ (sort3 a b c).2.2 := by
  rw [sort3_spec]
  refine ⟨?_, ?_⟩
  · simp only
    exact le_max_of_le_left (le_min (min_le_left _ _) ((min_le_right _ _).trans (min_le_left _ _)))
  · simp only
    refine max_le ((min_le_left _ _).trans (le_max_left _ _)) ?_
    rcases le_total a b with h | h
    · rw [max_eq_right h]; exact (min_le_left _ _).trans ((le_max_left _ _).trans (le_max_right _ _))
    · rw [max_eq_left h]; exact (min_le_left _ _).trans (le_max_left _ _)

theorem sort3_of_ascending {a b c : R} (h1 : a ≤ b) (h2 : b ≤ c) : sort3 a b c = (a, b, c) := by
  simp [sort3, not_lt.mpr h1, not_lt.mpr h2, not_lt.mpr (h1.trans h2)]

theorem sort3_swap_right (a b c : R) : sort3 a c b = sort3 a b c := by
  rw [sort3_spec, sort3_spec, median_swap_right, min_comm c b, max_comm c b]

theorem sort3_swap_left (a b c : R) : sort3 b a c = sort3 a b c := by
  rw [sort3_spec, sort3_spec, min_left_comm, max_left_comm, min_comm b a, max_comm b a]

theorem adjust_values_of_ascending {t : TriFuzzyNum R} (h : t.Ascending) :
    adjust_values t = t := by
  obtain ⟨rk, fl, l, m, u⟩ := t
  simp only [adjust_values, sort3_of_ascending h.1 h.2]

theorem new_eq (a b c : R) :
    TriFuzzyNum.new a b c =
      { rank := (0, 0, 0), is_rank_computed := false,
        l := (sort3 a b c).1, m := (sort3 a b c).2.1, u := (sort3 a b c).2.2 } := rfl

theorem new_ascending (a b c : R) : (TriFuzzyNum.new a b c).Ascending :=
  sort3_ascending a b c

theorem new_of_ascending {a b c : R} (h1 : a ≤ b) (h2 : b ≤ c) :
    TriFuzzyNum.new a b c = { rank := (0, 0, 0), is_rank_computed := false, l := a, m := b, u := c } := by
  rw [new_eq, sort3_of_ascending h1 h2]

/-- C5: the three-argument constructor stores the minimum, the median and the
maximum of its arguments as lower, modal and upper value, and builds the same
object from each of the six orders of the same three arguments. -/
theorem constructor_is_order_independent (a b c : R) :
    (TriFuzzyNum.new a b c).lower_value = min a (min b c) ∧
    (TriFuzzyNum.new a b c).modal_value = max (min a b) (min (max a b) c) ∧
    (TriFuzzyNum.new a b c).upper_value = max a (max b c) ∧
    (TriFuzzyNum.new a b c).lower_value + (TriFuzzyNum.new a b c).modal_value +
      (TriFuzzyNum.new a b c).upper_value = a + b + c ∧
    TriFuzzyNum.new a c b = TriFuzzyNum.new a b c ∧
    TriFuzzyNum.new b a c = TriFuzzyNum.new a b c ∧
    TriFuzzyNum.new b c a = TriFuzzyNum.new a b c ∧
    TriFuzzyNum.new c a b = TriFuzzyNum.new a b c ∧
    TriFuzzyNum.new c b a = TriFuzzyNum.new a b c := by
  have e1 : TriFuzzyNum.new a c b = TriFuzzyNum.new a b c := by
    rw [new_eq, new_eq, sort3_swap_right]
  have e2 : TriFuzzyNum.new b a c = TriFuzzyNum.new a b c := by
    rw [new_eq, new_eq, sort3_swap_left]
  have e3 : TriFuzzyNum.new b c a = TriFuzzyNum.new a b c := by
    rw [new_eq, new_eq, sort3_swap_right, sort3_swap_left]
  have e4 : TriFuzzyNum.new c a b = TriFuzzyNum.new a b c := by
    rw [new_eq, new_eq, sort3_swap_left, sort3_swap_right]
  have e5 : TriFuzzyNum.new c b a = TriFuzzyNum.new a b c := by
    rw [new_eq, new_eq, sort3_swap_right, sort3_swap_left, sort3_swap_right]
  refine ⟨?_, ?_, ?_, ?_, e1, e2, e3, e4, e5⟩
  · simp [lower_value, new_eq, sort3_spec]
  · simp [modal_value, new_eq, sort3_spec]
  · simp [upper_value, new_eq, sort3_spec]
  · simp only [lower_value, modal_value, upper_value, new_eq]
    unfold sort3
    by_cases h1 : b < a <;> by_cases h2 : c < b <;> by_cases h3 : c < a <;>
      simp only [h1, h2, h3, if_true, if_false] <;> ring

/-! ## Rank order and raw equality -/

theorem op_eq_iff (a b : TriFuzzyNum R) :
    op_eq a b = true ↔ a.l = b.l ∧ a.m = b.m ∧ a.u = b.u := by
  simp [op_eq, and_assoc]

theorem rank_key_congr (sqrt : R → R) {a b : TriFuzzyNum R}
    (h : a.l = b.l ∧ a.m = b.m ∧ a.u = b.u) : rank_key sqrt a = rank_key sqrt b := by
  obtain ⟨h1, h2, h3⟩ := h
  simp [rank_key, compute_rank, h1, h2, h3]

theorem rank_key_eq_iff (a b : TriFuzzyNum ℝ) :
    rank_key Real.sqrt a = rank_key Real.sqrt b ↔ op_eq a b = true := by
  rw [op_eq_iff]
  exact ⟨rank_key_injective a b, rank_key_congr Real.sqrt⟩

theorem rank_used_compute (sqrt : R → R) (t : TriFuzzyNum R) :
    rank_used sqrt (if !t.is_rank_computed then compute_rank sqrt t else t) = rank_used sqrt t := by
  cases hf : t.is_rank_computed <;> simp [rank_used, hf, compute_rank]

theorem multiset_equiv_eq_op_eq {x v : TriFuzzyNum ℝ} (hx : CacheOk Real.sqrt x)
    (hv : CacheOk Real.sqrt v) : multiset_equiv Real.sqrt x v = op_eq x v := by
  rw [Bool.eq_iff_iff, multiset_equiv_iff, rank_used_of_cacheOk hx, rank_used_of_cacheOk hv,
    rank_key_eq_iff]

/-- Exact arithmetic: over the reals no two values with different raw
components have equal rank keys. -/
theorem no_distinct_values_share_a_rank_key :
    ¬ ∃ a b : TriFuzzyNum ℝ, op_eq a b = false ∧
      (compute_rank Real.sqrt a).rank = (compute_rank Real.sqrt b).rank := by
  rintro ⟨a, b, hne, hk⟩
  have h := (rank_key_eq_iff a b).mp hk
  rw [h] at hne
  exact Bool.noConfusion hne

/-- Exact arithmetic: over the reals the rank key determines the raw components,
so two reachable values have equal rank keys, and are reported equivalent by
`<=>` (neither `<` nor `>`), exactly when they are `==`. -/
theorem rank_equivalent_iff_raw_equal (a b : TriFuzzyNum ℝ)
    (ha : TriFuzzyNum.Reachable Real.sqrt a) (hb : TriFuzzyNum.Reachable Real.sqrt b) :
    ((compute_rank Real.sqrt a).rank = (compute_rank Real.sqrt b).rank ↔ op_eq a b = true) ∧
    ((op_spaceship Real.sqrt a b).1 = .eq ↔ op_eq a b = true) ∧
    ((op_lt Real.sqrt a b = false ∧ op_gt Real.sqrt a b = false) ↔ op_eq a b = true) := by
  have hk := rank_key_eq_iff a b
  have hs : (op_spaceship Real.sqrt a b).1 = .eq ↔ op_eq a b = true := by
    rw [op_spaceship_result, tuple_cmp_eq_eq, rank_used_of_cacheOk ha.cacheOk,
      rank_used_of_cacheOk hb.cacheOk, hk]
  refine ⟨hk, hs, ?_⟩
  rw [← hs]
  unfold op_lt op_gt
  cases (op_spaceship Real.sqrt a b).1 <;> decide

/-- Example in exact arithmetic: the two constructions of `(0, 1, 2)`. -/
theorem rank_equivalent_iff_raw_equal_witness :
    (op_spaceship Real.sqrt (TriFuzzyNum.new (0 : ℝ) 1 2) (TriFuzzyNum.new (2 : ℝ) 1 0)).1 = .eq ↔
      op_eq (TriFuzzyNum.new (0 : ℝ) 1 2) (TriFuzzyNum.new (2 : ℝ) 1 0) = true :=
  (rank_equivalent_iff_raw_equal _ _ (.new 0 1 2) (.new 2 1 0)).2.1

/-- Exact arithmetic: the rank comparison is a strict total order on the rank keys the
operands are compared by. Exactly one of `x < y`, `x <=> y` equal, `y < x`
holds; `x > y` is `y < x`; the result is equal exactly when the keys are;
`<` is transitive; and a comparison leaves the key of either operand as it
was, so the same holds for comparisons made one after another. -/
theorem rank_order_is_strict_total (sqrt : R → R) (x y z : TriFuzzyNum R) :
    ((op_lt sqrt x y = true ∧ (op_spaceship sqrt x y).1 ≠ .eq ∧ op_lt sqrt y x = false) ∨
      (op_lt sqrt x y = false ∧ (op_spaceship sqrt x y).1 = .eq ∧ op_lt sqrt y x = false) ∨
      (op_lt sqrt x y = false ∧ (op_spaceship sqrt x y).1 ≠ .eq ∧ op_lt sqrt y x = true)) ∧
    op_gt sqrt x y = op_lt sqrt y x ∧
    ((op_spaceship sqrt x y).1 = .eq ↔ rank_used sqrt x = rank_used sqrt y) ∧
    (op_lt sqrt x y = true → op_lt sqrt y z = true → op_lt sqrt x z = true) ∧
    rank_used sqrt (op_spaceship sqrt x y).2.1 = rank_used sqrt x ∧
    rank_used sqrt (op_spaceship sqrt x y).2.2 = rank_used sqrt y := by
  have hgt : op_gt sqrt x y = op_lt sqrt y x := by
    rw [Bool.eq_iff_iff, op_gt_iff, op_lt_iff]
  have heq : (op_spaceship sqrt x y).1 = .eq ↔ rank_used sqrt x = rank_used sqrt y := by
    rw [op_spaceship_result, tuple_cmp_eq_eq]
  refine ⟨?_, hgt, heq, ?_, rank_used_compute sqrt x, rank_used_compute sqrt y⟩
  · rw [← hgt]
    unfold op_lt op_gt
    cases (op_spaceship sqrt x y).1 <;> decide
  · rw [op_lt_iff, op_lt_iff, op_lt_iff]
    exact lex_lt_trans

/-! ## The class invariant under the compound assignments -/

theorem op_add_assign_ascending {t v : TriFuzzyNum R} (ht : t.Ascending) (hv : v.Ascending) :
    (op_add_assign t (.other v)).Ascending := by
  obtain ⟨h1, h2⟩ := ht
  obtain ⟨h3, h4⟩ := hv
  exact ⟨add_le_add h1 h3, add_le_add h2 h4⟩

theorem op_add_assign_self_ascending {t : TriFuzzyNum R} (ht : t.Ascending) :
    (op_add_assign t .self).Ascending := by
  obtain ⟨h1, h2⟩ := ht
  exact ⟨add_le_add h1 h1, add_le_add h2 h2⟩

theorem op_sub_assign_ascending {t v : TriFuzzyNum R} (ht : t.Ascending) (hv : v.Ascending) :
    (op_sub_assign t (.other v)).Ascending := by
  obtain ⟨h1, h2⟩ := ht
  obtain ⟨h3, h4⟩ := hv
  exact ⟨sub_le_sub h1 h4, sub_le_sub h2 h3⟩

theorem op_mul_assign_ascending (t : TriFuzzyNum R) (rhs : Operand R) :
    (op_mul_assign t rhs).Ascending :=
  sort3_ascending _ _ _

/-- C6, the failing input: with `a = (-1, -1, -1)` the call `a -= a` reads
`rhs.lower_value()` after `l` was overwritten and leaves `a = (0, 0, -1)`,
whose lower value exceeds its upper value. -/
theorem sub_assign_self_breaks_ascending :
    TriFuzzyNum.Reachable Real.sqrt (op_sub_assign (TriFuzzyNum.new (-1 : ℝ) (-1) (-1)) .self) ∧
    (op_sub_assign (TriFuzzyNum.new (-1 : ℝ) (-1) (-1)) .self).lower_value = 0 ∧
    (op_sub_assign (TriFuzzyNum.new (-1 : ℝ) (-1) (-1)) .self).modal_value = 0 ∧
    (op_sub_assign (TriFuzzyNum.new (-1 : ℝ) (-1) (-1)) .self).upper_value = -1 ∧
    ¬ (op_sub_assign (TriFuzzyNum.new (-1 : ℝ) (-1) (-1)) .self).Ascending ∧
    (op_sub (TriFuzzyNum.new (-1 : ℝ) (-1) (-1)) (TriFuzzyNum.new (-1 : ℝ) (-1) (-1))).upper_value
      = 0 := by
  refine ⟨.sub_assign_self _ (.new _ _ _), ?_, ?_, ?_, ?_, ?_⟩ <;>
    norm_num [op_sub, op_sub_assign, new_eq, sort3, Operand.get, upper_value, lower_value, modal_value,
      Ascending]

/-! ## The multiset and its running sums -/

theorem multiset_insert_perm (sqrt : R → R) (v : TriFuzzyNum R) (xs : List (TriFuzzyNum R)) :
    (multiset_insert sqrt v xs).Perm (v :: xs) := by
  induction xs with
  | nil => exact List.Perm.refl _
  | cons x xs ih =>
    unfold multiset_insert
    split_ifs
    · exact List.Perm.refl _
    · exact (List.Perm.cons x ih).trans (List.Perm.swap v x xs)

theorem multiset_insert_length (sqrt : R → R) (v : TriFuzzyNum R) (xs : List (TriFuzzyNum R)) :
    (multiset_insert sqrt v xs).length = xs.length + 1 :=
  (multiset_insert_perm sqrt v xs).length_eq

theorem multiset_insert_sum (sqrt : R → R) (f : TriFuzzyNum R → R) (v : TriFuzzyNum R)
    (xs : List (TriFuzzyNum R)) :
    ((multiset_insert sqrt v xs).map f).sum = (xs.map f).sum + f v := by
  rw [((multiset_insert_perm sqrt v xs).map f).sum_eq, List.map_cons, List.sum_cons, add_comm]

theorem sum_filter_split (f : TriFuzzyNum R → R) (p : TriFuzzyNum R → Bool) (c : R)
    (xs : List (TriFuzzyNum R)) (h : ∀ x ∈ xs, p x = true → f x = c) :
    ((xs.filter (fun x => !(p x))).map f).sum =
      (xs.map f).sum - ((xs.filter p).length : R) * c := by
  induction xs with
  | nil => simp
  | cons x xs ih =>
    have ih2 := ih (fun y hy => h y (List.mem_cons_of_mem x hy))
    cases hp : p x
    · rw [show List.filter (fun y => !(p y)) (x :: xs) = x :: List.filter (fun y => !(p y)) xs by
        simp [List.filter_cons, hp]]
      rw [show List.filter p (x :: xs) = List.filter p xs by simp [List.filter_cons, hp]]
      rw [List.map_cons, List.sum_cons, List.map_cons, List.sum_cons, ih2]
      ring
    · have hc := h x (List.mem_cons_self x xs) hp
      rw [show List.filter (fun y => !(p y)) (x :: xs) = List.filter (fun y => !(p y)) xs by
        simp [List.filter_cons, hp]]
      rw [show List.filter p (x :: xs) = x :: List.filter p xs by simp [List.filter_cons, hp]]
      rw [List.map_cons, List.sum_cons, List.length_cons, ih2, hc]
      push_cast
      ring

theorem foldl_insert_set (sqrt : R → R) (args : List (TriFuzzyNum R)) (s : TriFuzzyNumSet R) :
    (args.foldl (TriFuzzyNumSet.insert sqrt) s).set.Perm (args.reverse ++ s.set) ∧
    (args.foldl (TriFuzzyNumSet.insert sqrt) s).sum_l = s.sum_l + (args.map lower_value).sum ∧
    (args.foldl (TriFuzzyNumSet.insert sqrt) s).sum_m = s.sum_m + (args.map modal_value).sum ∧
    (args.foldl (TriFuzzyNumSet.insert sqrt) s).sum_u = s.sum_u + (args.map upper_value).sum := by
  induction args generalizing s with
  | nil => simp
  | cons a args ih =>
    obtain ⟨h1, h2, h3, h4⟩ := ih (TriFuzzyNumSet.insert sqrt s a)
    simp only [List.foldl_cons, List.reverse_cons, List.map_cons, List.sum_cons]
    refine ⟨?_, ?_, ?_, ?_⟩
    · refine h1.trans ?_
      simp only [TriFuzzyNumSet.insert, List.append_assoc, List.singleton_append]
      exact List.Perm.append_left _ (multiset_insert_perm sqrt a s.set)
    · rw [h2]; simp only [TriFuzzyNumSet.insert]; ring
    · rw [h3]; simp only [TriFuzzyNumSet.insert]; ring
    · rw [h4]; simp only [TriFuzzyNumSet.insert]; ring

/-- The invariant of a set: every element has a valid cache, and the three
running sums are the sums over the elements. -/
theorem reachable_set_invariant {s : TriFuzzyNumSet ℝ}
    (h : TriFuzzyNumSet.Reachable Real.sqrt s) :
    (∀ x ∈ s.set, CacheOk Real.sqrt x) ∧
    s.sum_l = (s.set.map lower_value).sum ∧
    s.sum_m = (s.set.map modal_value).sum ∧
    s.sum_u = (s.set.map upper_value).sum := by
  induction h with
  | empty => simp [TriFuzzyNumSet.empty]
  | of_list args hargs =>
    obtain ⟨h1, h2, h3, h4⟩ := foldl_insert_set Real.sqrt args TriFuzzyNumSet.empty
    rw [show (TriFuzzyNumSet.empty : TriFuzzyNumSet ℝ).set = [] from rfl, List.append_nil] at h1
    rw [show (TriFuzzyNumSet.empty : TriFuzzyNumSet ℝ).sum_l = 0 from rfl, zero_add] at h2
    rw [show (TriFuzzyNumSet.empty : TriFuzzyNumSet ℝ).sum_m = 0 from rfl, zero_add] at h3
    rw [show (TriFuzzyNumSet.empty : TriFuzzyNumSet ℝ).sum_u = 0 from rfl, zero_add] at h4
    refine ⟨?_, ?_, ?_, ?_⟩
    · intro x hx
      exact (hargs x (List.mem_reverse.mp (h1.mem_iff.mp hx))).cacheOk
    · rw [TriFuzzyNumSet.of_list, h2, (h1.map lower_value).sum_eq, List.map_reverse, List.sum_reverse]
    · rw [TriFuzzyNumSet.of_list, h3, (h1.map modal_value).sum_eq, List.map_reverse, List.sum_reverse]
    · rw [TriFuzzyNumSet.of_list, h4, (h1.map upper_value).sum_eq, List.map_reverse, List.sum_reverse]
  | insert s num _ hnum ih =>
    obtain ⟨h0, h1, h2, h3⟩ := ih
    refine ⟨?_, ?_, ?_, ?_⟩
    · intro x hx
      rcases List.mem_cons.mp ((multiset_insert_perm Real.sqrt num s.set).mem_iff.mp hx) with e | e
      · exact e ▸ hnum.cacheOk
      · exact h0 x e
    · simp only [TriFuzzyNumSet.insert, multiset_insert_sum, h1]
    · simp only [TriFuzzyNumSet.insert, multiset_insert_sum, h2]
    · simp only [TriFuzzyNumSet.insert, multiset_insert_sum, h3]
  | remove s num _ hnum ih =>
    obtain ⟨h0, h1, h2, h3⟩ := ih
    have hraw : ∀ x ∈ s.set, multiset_equiv Real.sqrt x num = true →
        x.l = num.l ∧ x.m = num.m ∧ x.u = num.u := by
      intro x hx he
      rw [multiset_equiv_eq_op_eq (h0 x hx) hnum.cacheOk] at he
      exact (op_eq_iff x num).mp he
    refine ⟨?_, ?_, ?_, ?_⟩
    · intro x hx
      exact h0 x (List.mem_of_mem_filter hx)
    · simp only [TriFuzzyNumSet.remove, multiset_erase, h1]
      exact (sum_filter_split lower_value _ num.lower_value s.set
        (fun x hx he => (hraw x hx he).1)).symm
    · simp only [TriFuzzyNumSet.remove, multiset_erase, h2]
      exact (sum_filter_split modal_value _ num.modal_value s.set
        (fun x hx he => (hraw x hx he).2.1)).symm
    · simp only [TriFuzzyNumSet.remove, multiset_erase, h3]
      exact (sum_filter_split upper_value _ num.upper_value s.set
        (fun x hx he => (hraw x hx he).2.2)).symm

/-- Exact arithmetic: in every set built from the empty set or from an initializer list by
`insert` and `remove` calls, `sum_l`, `sum_m` and `sum_u` are the sums of the
lower, modal and upper values over the elements held, each occurrence counted
once. -/
theorem running_sums_are_exact (s : TriFuzzyNumSet ℝ)
    (h : TriFuzzyNumSet.Reachable Real.sqrt s) :
    s.sum_l = (s.set.map lower_value).sum ∧
    s.sum_m = (s.set.map modal_value).sum ∧
    s.sum_u = (s.set.map upper_value).sum :=
  (reachable_set_invariant h).2

/-- Example in exact arithmetic: the set `{(1, 2, 3), (4, 5, 6)}` after `insert((1, 2, 3))`
and `remove((1, 2, 3))`. -/
theorem running_sums_are_exact_witness :
    (TriFuzzyNumSet.remove Real.sqrt
      (TriFuzzyNumSet.insert Real.sqrt
        (TriFuzzyNumSet.of_list Real.sqrt [TriFuzzyNum.new 1 2 3, TriFuzzyNum.new 4 5 6])
        (TriFuzzyNum.new 1 2 3))
      (TriFuzzyNum.new 1 2 3)).sum_l =
    ((TriFuzzyNumSet.remove Real.sqrt
      (TriFuzzyNumSet.insert Real.sqrt
        (TriFuzzyNumSet.of_list Real.sqrt [TriFuzzyNum.new 1 2 3, TriFuzzyNum.new 4 5 6])
        (TriFuzzyNum.new 1 2 3))
      (TriFuzzyNum.new 1 2 3)).set.map lower_value).sum :=
  (running_sums_are_exact _
    (.remove _ _
      (.insert _ _
        (.of_list _ (by
          intro a ha
          simp only [List.mem_cons, List.mem_singleton, List.not_mem_nil, or_false] at ha
          rcases ha with e | e <;> rw [e] <;> exact .new _ _ _))
        (.new 1 2 3))
      (.new 1 2 3))).1

theorem multiset_erase_eq {s : TriFuzzyNumSet ℝ} {v : TriFuzzyNum ℝ}
    (hs : TriFuzzyNumSet.Reachable Real.sqrt s) (hv : TriFuzzyNum.Reachable Real.sqrt v) :
    multiset_erase Real.sqrt v s.set =
      (s.set.filter (fun x => !(op_eq x v)), (s.set.filter (fun x => op_eq x v)).length) := by
  have h0 := (reachable_set_invariant hs).1
  unfold multiset_erase
  congr 1
  · apply List.filter_congr
    intro x hx
    rw [multiset_equiv_eq_op_eq (h0 x hx) hv.cacheOk]
  · congr 1
    apply List.filter_congr
    intro x hx
    rw [multiset_equiv_eq_op_eq (h0 x hx) hv.cacheOk]

theorem op_lt_self (sqrt : R → R) (v : TriFuzzyNum R) : op_lt sqrt v v = false := by
  rw [← Bool.not_eq_true, op_lt_iff]
  exact lex_lt_irrefl _

theorem op_eq_self (v : TriFuzzyNum R) : op_eq v v = true :=
  (op_eq_iff v v).mpr ⟨rfl, rfl, rfl⟩

theorem insert_thrice_set (sqrt : R → R) (v : TriFuzzyNum R) :
    (TriFuzzyNumSet.insert sqrt (TriFuzzyNumSet.insert sqrt
      (TriFuzzyNumSet.insert sqrt TriFuzzyNumSet.empty v) v) v).set = [v, v, v] := by
  simp [TriFuzzyNumSet.insert, TriFuzzyNumSet.empty, multiset_insert, op_lt_self]

/-- Exact arithmetic: on a reachable set `remove(v)` deletes exactly the occurrences whose
raw components equal those of `v`, keeps every other element, and decrements
each running sum by the number of occurrences removed times the matching
component of `v`; after three inserts of `v` into the empty set one
`remove(v)` leaves no element and subtracts three times the components. -/
theorem remove_deletes_raw_equal (s : TriFuzzyNumSet ℝ) (v : TriFuzzyNum ℝ)
    (hs : TriFuzzyNumSet.Reachable Real.sqrt s) (hv : TriFuzzyNum.Reachable Real.sqrt v) :
    (TriFuzzyNumSet.remove Real.sqrt s v).set = s.set.filter (fun x => !(op_eq x v)) ∧
    (TriFuzzyNumSet.remove Real.sqrt s v).sum_l =
      s.sum_l - ((s.set.filter (fun x => op_eq x v)).length : ℝ) * v.lower_value ∧
    (TriFuzzyNumSet.remove Real.sqrt s v).sum_m =
      s.sum_m - ((s.set.filter (fun x => op_eq x v)).length : ℝ) * v.modal_value ∧
    (TriFuzzyNumSet.remove Real.sqrt s v).sum_u =
      s.sum_u - ((s.set.filter (fun x => op_eq x v)).length : ℝ) * v.upper_value ∧
    (TriFuzzyNumSet.remove Real.sqrt (TriFuzzyNumSet.insert Real.sqrt (TriFuzzyNumSet.insert
      Real.sqrt (TriFuzzyNumSet.insert Real.sqrt TriFuzzyNumSet.empty v) v) v) v).set = [] ∧
    (TriFuzzyNumSet.remove Real.sqrt (TriFuzzyNumSet.insert Real.sqrt (TriFuzzyNumSet.insert
      Real.sqrt (TriFuzzyNumSet.insert Real.sqrt TriFuzzyNumSet.empty v) v) v) v).sum_l =
      (TriFuzzyNumSet.insert Real.sqrt (TriFuzzyNumSet.insert Real.sqrt (TriFuzzyNumSet.insert
        Real.sqrt TriFuzzyNumSet.empty v) v) v).sum_l - 3 * v.lower_value ∧
    (TriFuzzyNumSet.remove Real.sqrt (TriFuzzyNumSet.insert Real.sqrt (TriFuzzyNumSet.insert
      Real.sqrt (TriFuzzyNumSet.insert Real.sqrt TriFuzzyNumSet.empty v) v) v) v).sum_m =
      (TriFuzzyNumSet.insert Real.sqrt (TriFuzzyNumSet.insert Real.sqrt (TriFuzzyNumSet.insert
        Real.sqrt TriFuzzyNumSet.empty v) v) v).sum_m - 3 * v.modal_value ∧
    (TriFuzzyNumSet.remove Real.sqrt (TriFuzzyNumSet.insert Real.sqrt (TriFuzzyNumSet.insert
      Real.sqrt (TriFuzzyNumSet.insert Real.sqrt TriFuzzyNumSet.empty v) v) v) v).sum_u =
      (TriFuzzyNumSet.insert Real.sqrt (TriFuzzyNumSet.insert Real.sqrt (TriFuzzyNumSet.insert
        Real.sqrt TriFuzzyNumSet.empty v) v) v).sum_u - 3 * v.upper_value := by
  have h3 : TriFuzzyNumSet.Reachable Real.sqrt (TriFuzzyNumSet.insert Real.sqrt
      (TriFuzzyNumSet.insert Real.sqrt (TriFuzzyNumSet.insert Real.sqrt TriFuzzyNumSet.empty v) v)
      v) := .insert _ _ (.insert _ _ (.insert _ _ .empty hv) hv) hv
  have e := multiset_erase_eq hs hv
  have e3 : multiset_erase Real.sqrt v (TriFuzzyNumSet.insert Real.sqrt
      (TriFuzzyNumSet.insert Real.sqrt (TriFuzzyNumSet.insert Real.sqrt TriFuzzyNumSet.empty v) v)
      v).set = ([], 3) := by
    rw [multiset_erase_eq h3 hv, insert_thrice_set]
    simp [op_eq_self]
  refine ⟨?_, ?_, ?_, ?_, ?_, ?_, ?_, ?_⟩
  · simp only [TriFuzzyNumSet.remove, e]
  · simp only [TriFuzzyNumSet.remove, e]
  · simp only [TriFuzzyNumSet.remove, e]
  · simp only [TriFuzzyNumSet.remove, e]
  · simp only [TriFuzzyNumSet.remove, e3]
  · simp only [TriFuzzyNumSet.remove, e3]; norm_num
  · simp only [TriFuzzyNumSet.remove, e3]; norm_num
  · simp only [TriFuzzyNumSet.remove, e3]; norm_num

/-- Example in exact arithmetic: removing `(1, 2, 3)` from the set holding it once. -/
theorem remove_deletes_raw_equal_witness :
    (TriFuzzyNumSet.remove Real.sqrt
      (TriFuzzyNumSet.insert Real.sqrt TriFuzzyNumSet.empty (TriFuzzyNum.new 1 2 3))
      (TriFuzzyNum.new 1 2 3)).set =
    (TriFuzzyNumSet.insert Real.sqrt TriFuzzyNumSet.empty (TriFuzzyNum.new 1 2 3)).set.filter
      (fun x => !(op_eq x (TriFuzzyNum.new 1 2 3))) :=
  (remove_deletes_raw_equal _ _ (.insert _ _ .empty (.new 1 2 3)) (.new 1 2 3)).1

theorem sum_map_le_sum_map (f g : TriFuzzyNum R → R) (xs : List (TriFuzzyNum R))
    (h : ∀ x ∈ xs, f x ≤ g x) : (xs.map f).sum ≤ (xs.map g).sum := by
  induction xs with
  | nil => simp
  | cons x xs ih =>
    rw [List.map_cons, List.sum_cons, List.map_cons, List.sum_cons]
    exact add_le_add (h x (List.mem_cons_self x xs))
      (ih (fun y hy => h y (List.mem_cons_of_mem x hy)))

/-- Exact arithmetic: for a non-empty list of values, each with lower <= modal <= upper, the
set built from it by successive inserts has as `arithmetic_mean()` the object
with components (sum of lowers / n, sum of modals / n, sum of uppers / n), `n`
the number of elements; the sorting in the constructor changes nothing. -/
theorem arithmetic_mean_of_list (sqrt : R → R) (args : List (TriFuzzyNum R))
    (hne : args ≠ []) (hasc : ∀ a ∈ args, a.Ascending) :
    (TriFuzzyNumSet.of_list sqrt args).set.length = args.length ∧
    TriFuzzyNumSet.arithmetic_mean (TriFuzzyNumSet.of_list sqrt args) =
      .ok { rank := (0, 0, 0), is_rank_computed := false,
            l := (args.map lower_value).sum / (args.length : R),
            m := (args.map modal_value).sum / (args.length : R),
            u := (args.map upper_value).sum / (args.length : R) } := by
  obtain ⟨h1, h2, h3, h4⟩ := foldl_insert_set sqrt args TriFuzzyNumSet.empty
  rw [show (TriFuzzyNumSet.empty : TriFuzzyNumSet R).set = [] from rfl, List.append_nil] at h1
  rw [show (TriFuzzyNumSet.empty : TriFuzzyNumSet R).sum_l = 0 from rfl, zero_add] at h2
  rw [show (TriFuzzyNumSet.empty : TriFuzzyNumSet R).sum_m = 0 from rfl, zero_add] at h3
  rw [show (TriFuzzyNumSet.empty : TriFuzzyNumSet R).sum_u = 0 from rfl, zero_add] at h4
  have hlen : (TriFuzzyNumSet.of_list sqrt args).set.length = args.length := by
    rw [TriFuzzyNumSet.of_list, h1.length_eq, List.length_reverse]
  have hpos : (0 : R) ≤ (args.length : R) := Nat.cast_nonneg _
  have hnil : (TriFuzzyNumSet.of_list sqrt args).set.isEmpty = false := by
    cases hs : (TriFuzzyNumSet.of_list sqrt args).set with
    | nil =>
      rw [hs] at hlen
      exact absurd (List.length_eq_zero.mp hlen.symm) hne
    | cons x xs => rfl
  refine ⟨hlen, ?_⟩
  unfold TriFuzzyNumSet.arithmetic_mean
  rw [hnil]
  simp only [Bool.false_eq_true, if_false, hlen]
  rw [show (TriFuzzyNumSet.of_list sqrt args).sum_l = (args.map lower_value).sum from h2,
    show (TriFuzzyNumSet.of_list sqrt args).sum_m = (args.map modal_value).sum from h3,
    show (TriFuzzyNumSet.of_list sqrt args).sum_u = (args.map upper_value).sum from h4]
  rw [new_of_ascending]
  · exact div_le_div_of_nonneg_right
      (sum_map_le_sum_map _ _ args (fun a ha => (hasc a ha).1)) hpos
  · exact div_le_div_of_nonneg_right
      (sum_map_le_sum_map _ _ args (fun a ha => (hasc a ha).2)) hpos

/-- Example in exact arithmetic: the mean of `{(0, 0, 0), (2, 2, 2), (4, 4, 4)}` is
`(2, 2, 2)`. -/
theorem arithmetic_mean_of_list_witness :
    TriFuzzyNumSet.arithmetic_mean (TriFuzzyNumSet.of_list Real.sqrt
      [TriFuzzyNum.new (0 : ℝ) 0 0, TriFuzzyNum.new 2 2 2, TriFuzzyNum.new 4 4 4]) =
      .ok (TriFuzzyNum.new 2 2 2) := by
  have h := (arithmetic_mean_of_list Real.sqrt
    [TriFuzzyNum.new (0 : ℝ) 0 0, TriFuzzyNum.new 2 2 2, TriFuzzyNum.new 4 4 4]
    (by simp) (fun a _ => by
      rename_i ha
      simp only [List.mem_cons, List.mem_singleton, List.not_mem_nil, or_false] at ha
      rcases ha with e | e | e <;> rw [e] <;> exact new_ascending _ _ _)).2
  rw [h]
  norm_num [new_eq, sort3, lower_value, modal_value, upper_value]

/-- C8: `arithmetic_mean()` fails with the `length_error` exactly when the set
holds no element, and returns a value exactly when it holds one; it fails on
the default-constructed set. -/
theorem arithmetic_mean_fails_iff_empty (s : TriFuzzyNumSet R) :
    (TriFuzzyNumSet.arithmetic_mean s =
        .error "TriFuzzyNumSet::arithmetic_mean - the set is empty." ↔ s.set.length = 0) ∧
    ((∃ t, TriFuzzyNumSet.arithmetic_mean s = .ok t) ↔ 0 < s.set.length) ∧
    TriFuzzyNumSet.arithmetic_mean (TriFuzzyNumSet.empty : TriFuzzyNumSet R) =
      .error "TriFuzzyNumSet::arithmetic_mean - the set is empty." := by
  refine ⟨?_, ?_, rfl⟩
  · unfold TriFuzzyNumSet.arithmetic_mean
    cases hs : s.set <;> simp
  · unfold TriFuzzyNumSet.arithmetic_mean
    cases hs : s.set <;> simp

/-- Exact arithmetic: on a reachable set, `remove(v)` for a value of which the set holds no
raw-equal occurrence leaves the contents, the element count and the three
running sums as they were. -/
theorem remove_absent_is_noop (s : TriFuzzyNumSet ℝ) (v : TriFuzzyNum ℝ)
    (hs : TriFuzzyNumSet.Reachable Real.sqrt s) (hv : TriFuzzyNum.Reachable Real.sqrt v)
    (habs : ∀ x ∈ s.set, op_eq x v = false) :
    (TriFuzzyNumSet.remove Real.sqrt s v).set = s.set ∧
    (TriFuzzyNumSet.remove Real.sqrt s v).set.length = s.set.length ∧
    (TriFuzzyNumSet.remove Real.sqrt s v).sum_l = s.sum_l ∧
    (TriFuzzyNumSet.remove Real.sqrt s v).sum_m = s.sum_m ∧
    (TriFuzzyNumSet.remove Real.sqrt s v).sum_u = s.sum_u := by
  have e := multiset_erase_eq hs hv
  have e1 : s.set.filter (fun x => !(op_eq x v)) = s.set := by
    rw [List.filter_eq_self]
    intro x hx
    simp [habs x hx]
  have e2 : s.set.filter (fun x => op_eq x v) = [] := by
    rw [List.filter_eq_nil_iff]
    intro x hx
    simp [habs x hx]
  rw [e1, e2] at e
  simp [TriFuzzyNumSet.remove, e]

/-- Example in exact arithmetic: removing `(0, 0, 0)` from the set `{(1, 2, 3)}`. -/
theorem remove_absent_is_noop_witness :
    (TriFuzzyNumSet.remove Real.sqrt
      (TriFuzzyNumSet.insert Real.sqrt TriFuzzyNumSet.empty (TriFuzzyNum.new 1 2 3))
      (TriFuzzyNum.new 0 0 0)).set =
    (TriFuzzyNumSet.insert Real.sqrt TriFuzzyNumSet.empty (TriFuzzyNum.new 1 2 3)).set :=
  (remove_absent_is_noop _ _ (.insert _ _ .empty (.new 1 2 3)) (.new 0 0 0) (by
    intro x hx
    simp only [TriFuzzyNumSet.insert, TriFuzzyNumSet.empty, multiset_insert,
      List.mem_singleton] at hx
    rw [hx]
    norm_num [op_eq, new_eq, sort3])).1

/-- C10: `insert(v)` is total; the new contents are the old ones with one more
occurrence of `v`: the element count and the number of occurrences of `v`
grow by one, the occurrences of every other value stay as they were, and the
lower, modal and upper value of `v` are added to `sum_l`, `sum_m`, `sum_u`. -/
theorem insert_adds_one_occurrence (sqrt : R → R) (s : TriFuzzyNumSet R) (v : TriFuzzyNum R) :
    (TriFuzzyNumSet.insert sqrt s v).set.Perm (v :: s.set) ∧
    (TriFuzzyNumSet.insert sqrt s v).set.length = s.set.length + 1 ∧
    (TriFuzzyNumSet.insert sqrt s v).set.countP (fun x => op_eq x v) =
      s.set.countP (fun x => op_eq x v) + 1 ∧
    (∀ w : TriFuzzyNum R, op_eq v w = false →
      (TriFuzzyNumSet.insert sqrt s v).set.countP (fun x => op_eq x w) =
        s.set.countP (fun x => op_eq x w)) ∧
    (TriFuzzyNumSet.insert sqrt s v).sum_l = s.sum_l + v.lower_value ∧
    (TriFuzzyNumSet.insert sqrt s v).sum_m = s.sum_m + v.modal_value ∧
    (TriFuzzyNumSet.insert sqrt s v).sum_u = s.sum_u + v.upper_value := by
  have hp : (TriFuzzyNumSet.insert sqrt s v).set.Perm (v :: s.set) :=
    multiset_insert_perm sqrt v s.set
  refine ⟨hp, multiset_insert_length sqrt v s.set, ?_, ?_, rfl, rfl, rfl⟩
  · rw [hp.countP_eq, List.countP_cons]
    simp [op_eq_self]
  · intro w hw
    rw [hp.countP_eq, List.countP_cons]
    simp [hw]

/-! ## The denominator of the ranking formula -/

theorem compute_rank_rank (sqrt : R → R) (t : TriFuzzyNum R) :
    (compute_rank sqrt t).rank =
      (((t.u - t.l) * t.m + sqrt (1 + (t.u - t.m) * (t.u - t.m)) * t.l +
          sqrt (1 + (t.m - t.l) * (t.m - t.l)) * t.u) / rank_denominator sqrt t -
        (t.u - t.l) / rank_denominator sqrt t / 2,
       1 - (t.u - t.l) / rank_denominator sqrt t,
       t.m) := rfl

theorem one_le_hyp (a : ℝ) : 1 ≤ Real.sqrt (1 + a * a) := by
  have h : Real.sqrt 1 ≤ Real.sqrt (1 + a * a) :=
    Real.sqrt_le_sqrt (by nlinarith [mul_self_nonneg a])
  rwa [Real.sqrt_one] at h

/-- C11: for a value with lower <= modal <= upper the denominator `z` of
`compute_rank`, by which `y` and `x` are divided, is at least 2, hence
positive and not zero. -/
theorem rank_denominator_ge_two (t : TriFuzzyNum ℝ) (h : t.Ascending) :
    rank_denominator Real.sqrt t =
      (t.u - t.l) + Real.sqrt (1 + (t.u - t.m) * (t.u - t.m)) +
        Real.sqrt (1 + (t.m - t.l) * (t.m - t.l)) ∧
    2 ≤ rank_denominator Real.sqrt t ∧
    0 < rank_denominator Real.sqrt t ∧
    rank_denominator Real.sqrt t ≠ 0 ∧
    (compute_rank Real.sqrt t).rank =
      (((t.u - t.l) * t.m + Real.sqrt (1 + (t.u - t.m) * (t.u - t.m)) * t.l +
          Real.sqrt (1 + (t.m - t.l) * (t.m - t.l)) * t.u) / rank_denominator Real.sqrt t -
        (t.u - t.l) / rank_denominator Real.sqrt t / 2,
       1 - (t.u - t.l) / rank_denominator Real.sqrt t,
       t.m) := by
  obtain ⟨h1, h2⟩ := h
  have hA := one_le_hyp (t.u - t.m)
  have hB := one_le_hyp (t.m - t.l)
  have h2le : 2 ≤ rank_denominator Real.sqrt t := by
    unfold rank_denominator
    linarith
  exact ⟨rfl, h2le, by linarith, by linarith, rfl⟩

/-- Witness for C11: the crisp number `(5, 5, 5)`, where `u = l`. -/
theorem rank_denominator_ge_two_witness :
    2 ≤ rank_denominator Real.sqrt (TriFuzzyNum.new (5 : ℝ) 5 5) :=
  (rank_denominator_ge_two _ (new_ascending 5 5 5)).2.1

/-! ## The cache refines the specification's ranking -/

theorem rank_key_eq_spec (sqrt : R → R) (t : TriFuzzyNum R) :
    rank_key sqrt t = spec_rank_key sqrt t.l t.m t.u := by
  simp only [rank_key, compute_rank, spec_rank_key, pow_two]

theorem tuple_cmp_eq_spec_compare (p q : R × R × R) : tuple_cmp p q = spec_compare p q := by
  obtain ⟨p1, p2, p3⟩ := p
  obtain ⟨q1, q2, q3⟩ := q
  simp only [tuple_cmp, spec_compare, three_way]
  by_cases h1 : p1 < q1
  · simp [h1]
  · by_cases h2 : q1 < p1
    · simp [h1, h2]
    · by_cases h3 : p2 < q2
      · simp [h1, h2, h3]
      · by_cases h4 : q2 < p2
        · simp [h1, h2, h3, h4]
        · simp [h1, h2, h3, h4]

theorem op_spaceship_fills (sqrt : R → R) {t : TriFuzzyNum R} (h : CacheOk sqrt t) :
    (if !t.is_rank_computed then compute_rank sqrt t else t).is_rank_computed = true ∧
    (if !t.is_rank_computed then compute_rank sqrt t else t).rank = rank_key sqrt t ∧
    (if !t.is_rank_computed then compute_rank sqrt t else t).l = t.l ∧
    (if !t.is_rank_computed then compute_rank sqrt t else t).m = t.m ∧
    (if !t.is_rank_computed then compute_rank sqrt t else t).u = t.u := by
  cases hf : t.is_rank_computed
  · exact ⟨rfl, rfl, rfl, rfl, rfl⟩
  · exact ⟨by simpa using hf, by simpa using h hf, by simp, by simp, by simp⟩

/-- C12: on every object reachable through the constructor, copies, `+=`,
`-=`, `*=` and comparisons, a set flag `is_rank_computed` means that the cached
rank is the specification's key of the current `l`, `m`, `u`; so `a <=> b` is
the specification's lexicographic comparison of the two freshly computed keys
whatever the cache states, and it leaves both caches set and valid and the
components untouched. -/
theorem cached_rank_refines_spec (sqrt : R → R) (a b : TriFuzzyNum R)
    (ha : TriFuzzyNum.Reachable sqrt a) (hb : TriFuzzyNum.Reachable sqrt b) :
    (a.is_rank_computed = true → a.rank = spec_rank_key sqrt a.l a.m a.u) ∧
    (b.is_rank_computed = true → b.rank = spec_rank_key sqrt b.l b.m b.u) ∧
    (op_spaceship sqrt a b).1 =
      spec_compare (spec_rank_key sqrt a.l a.m a.u) (spec_rank_key sqrt b.l b.m b.u) ∧
    ((op_spaceship sqrt a b).2.1.is_rank_computed = true ∧
      (op_spaceship sqrt a b).2.1.rank = spec_rank_key sqrt a.l a.m a.u ∧
      (op_spaceship sqrt a b).2.1.l = a.l ∧ (op_spaceship sqrt a b).2.1.m = a.m ∧
      (op_spaceship sqrt a b).2.1.u = a.u) ∧
    ((op_spaceship sqrt a b).2.2.is_rank_computed = true ∧
      (op_spaceship sqrt a b).2.2.rank = spec_rank_key sqrt b.l b.m b.u ∧
      (op_spaceship sqrt a b).2.2.l = b.l ∧ (op_spaceship sqrt a b).2.2.m = b.m ∧
      (op_spaceship sqrt a b).2.2.u = b.u) := by
  have ca := ha.cacheOk
  have cb := hb.cacheOk
  have fa := op_spaceship_fills sqrt ca
  have fb := op_spaceship_fills sqrt cb
  rw [rank_key_eq_spec] at fa fb
  refine ⟨?_, ?_, ?_, fa, fb⟩
  · intro hf
    rw [← rank_key_eq_spec]
    exact ca hf
  · intro hf
    rw [← rank_key_eq_spec]
    exact cb hf
  · rw [op_spaceship_result, rank_used_of_cacheOk ca, rank_used_of_cacheOk cb,
      tuple_cmp_eq_spec_compare, rank_key_eq_spec, rank_key_eq_spec]

/-- Witness for C12: `a = (1, 2, 3)` with its cache filled by an earlier
comparison and then changed by `a += (1, 1, 1)`, compared with a fresh
`(0, 4, 9)`. -/
theorem cached_rank_refines_spec_witness :
    (op_spaceship Real.sqrt
      (op_add_assign (compute_rank Real.sqrt (TriFuzzyNum.new 1 2 3))
        (.other (TriFuzzyNum.new 1 1 1)))
      (TriFuzzyNum.new 0 4 9)).1 =
    spec_compare
      (spec_rank_key Real.sqrt
        (op_add_assign (compute_rank Real.sqrt (TriFuzzyNum.new 1 2 3))
          (.other (TriFuzzyNum.new 1 1 1))).l
        (op_add_assign (compute_rank Real.sqrt (TriFuzzyNum.new 1 2 3))
          (.other (TriFuzzyNum.new 1 1 1))).m
        (op_add_assign (compute_rank Real.sqrt (TriFuzzyNum.new 1 2 3))
          (.other (TriFuzzyNum.new 1 1 1))).u)
      (spec_rank_key Real.sqrt (TriFuzzyNum.new (0 : ℝ) 4 9).l (TriFuzzyNum.new (0 : ℝ) 4 9).m
        (TriFuzzyNum.new (0 : ℝ) 4 9).u) :=
  (cached_rank_refines_spec Real.sqrt _ _
    (.add_assign _ _ (.compute_rank _ (.new 1 2 3)) (.new 1 1 1)) (.new 0 4 9)).2.2.1

/-! ## The arithmetic operators -/

theorem crisp_number_components (v : R) :
    (crisp_number v).l = v ∧ (crisp_number v).m = v ∧ (crisp_number v).u = v ∧
    (crisp_number v).is_rank_computed = false := by
  simp [crisp_number, new_eq, sort3]

theorem op_add_components (x y : TriFuzzyNum R) :
    (op_add x y).l = x.l + y.l ∧ (op_add x y).m = x.m + y.m ∧ (op_add x y).u = x.u + y.u ∧
    (op_add x y).is_rank_computed = false :=
  ⟨rfl, rfl, rfl, rfl⟩

theorem op_sub_components (x y : TriFuzzyNum R) :
    (op_sub x y).l = x.l - y.u ∧ (op_sub x y).m = x.m - y.m ∧ (op_sub x y).u = x.u - y.l ∧
    (op_sub x y).is_rank_computed = false :=
  ⟨rfl, rfl, rfl, rfl⟩

/-- C13: `x + y` has the components `(x.l + y.l, x.m + y.m, x.u + y.u)`,
`x + crisp_zero == x`, and `x + y == y + x`. -/
theorem addition_is_componentwise (x y : TriFuzzyNum R) :
    (op_add x y).lower_value = x.lower_value + y.lower_value ∧
    (op_add x y).modal_value = x.modal_value + y.modal_value ∧
    (op_add x y).upper_value = x.upper_value + y.upper_value ∧
    op_eq (op_add x crisp_zero) x = true ∧
    op_eq (op_add x y) (op_add y x) = true := by
  obtain ⟨z1, z2, z3, _⟩ := crisp_number_components (0 : R)
  refine ⟨rfl, rfl, rfl, ?_, ?_⟩
  · rw [op_eq_iff]
    obtain ⟨h1, h2, h3, _⟩ := op_add_components x (crisp_zero : TriFuzzyNum R)
    rw [h1, h2, h3]
    unfold crisp_zero
    rw [z1, z2, z3]
    exact ⟨add_zero _, add_zero _, add_zero _⟩
  · rw [op_eq_iff]
    exact ⟨add_comm _ _, add_comm _ _, add_comm _ _⟩

/-- C14: `a * b` has as lower, modal and upper value the ascending sort of
the three products `a.l * b.l`, `a.m * b.m`, `a.u * b.u`: their minimum,
median and maximum. The result is ascending also when the products are not,
as for `(-2, -1, 3) * (-1, 1, 2)`, whose products `2, -1, 6` give
`(-1, 2, 6)`. -/
theorem multiplication_sorts_products (a b : TriFuzzyNum R) :
    ((op_mul a b).lower_value, (op_mul a b).modal_value, (op_mul a b).upper_value) =
      sort3 (a.l * b.l) (a.m * b.m) (a.u * b.u) ∧
    (op_mul a b).lower_value = min (a.l * b.l) (min (a.m * b.m) (a.u * b.u)) ∧
    (op_mul a b).modal_value =
      max (min (a.l * b.l) (a.m * b.m)) (min (max (a.l * b.l) (a.m * b.m)) (a.u * b.u)) ∧
    (op_mul a b).upper_value = max (a.l * b.l) (max (a.m * b.m) (a.u * b.u)) ∧
    (op_mul a b).lower_value ≤ (op_mul a b).modal_value ∧
    (op_mul a b).modal_value ≤ (op_mul a b).upper_value ∧
    ((op_mul (TriFuzzyNum.new (-2 : R) (-1) 3) (TriFuzzyNum.new (-1 : R) 1 2)).lower_value = -1 ∧
      (op_mul (TriFuzzyNum.new (-2 : R) (-1) 3) (TriFuzzyNum.new (-1 : R) 1 2)).modal_value = 2 ∧
      (op_mul (TriFuzzyNum.new (-2 : R) (-1) 3) (TriFuzzyNum.new (-1 : R) 1 2)).upper_value = 6) := by
  have hs : ((op_mul a b).lower_value, (op_mul a b).modal_value, (op_mul a b).upper_value) =
      sort3 (a.l * b.l) (a.m * b.m) (a.u * b.u) := rfl
  have h1 : (op_mul a b).lower_value = (sort3 (a.l * b.l) (a.m * b.m) (a.u * b.u)).1 := rfl
  have h2 : (op_mul a b).modal_value = (sort3 (a.l * b.l) (a.m * b.m) (a.u * b.u)).2.1 := rfl
  have h3 : (op_mul a b).upper_value = (sort3 (a.l * b.l) (a.m * b.m) (a.u * b.u)).2.2 := rfl
  have hasc := op_mul_assign_ascending a (.other b)
  refine ⟨hs, ?_, ?_, ?_, hasc.1, hasc.2, ?_, ?_, ?_⟩
  · rw [h1, sort3_spec]
  · rw [h2, sort3_spec]
  · rw [h3, sort3_spec]
  · norm_num [op_mul, op_mul_assign, adjust_values, new_eq, sort3, Operand.get, lower_value,
      modal_value, upper_value]
  · norm_num [op_mul, op_mul_assign, adjust_values, new_eq, sort3, Operand.get, lower_value,
      modal_value, upper_value]
  · norm_num [op_mul, op_mul_assign, adjust_values, new_eq, sort3, Operand.get, lower_value,
      modal_value, upper_value]

/-- C15: `a - b` has the components
`(a.lower - b.upper, a.modal - b.modal, a.upper - b.lower)`, also when both
operands are the same object, since the operator works on a copy of `a`;
these are not the componentwise differences, as `(1, 2, 3) - (0, 1, 5)`
with lower value `-4` shows. -/
theorem subtraction_crosses_bounds (a b : TriFuzzyNum R) :
    (op_sub a b).lower_value = a.lower_value - b.upper_value ∧
    (op_sub a b).modal_value = a.modal_value - b.modal_value ∧
    (op_sub a b).upper_value = a.upper_value - b.lower_value ∧
    ((op_sub a a).lower_value = a.lower_value - a.upper_value ∧
      (op_sub a a).modal_value = 0 ∧
      (op_sub a a).upper_value = a.upper_value - a.lower_value) ∧
    ((op_sub (TriFuzzyNum.new (1 : R) 2 3) (TriFuzzyNum.new (0 : R) 1 5)).lower_value = -4 ∧
      (TriFuzzyNum.new (1 : R) 2 3).lower_value - (TriFuzzyNum.new (0 : R) 1 5).lower_value = 1) := by
  refine ⟨rfl, rfl, rfl, ⟨rfl, ?_, rfl⟩, ?_, ?_⟩
  · exact sub_self _
  · norm_num [op_sub, op_sub_assign, new_eq, sort3, Operand.get, lower_value, upper_value]
  · norm_num [new_eq, sort3, lower_value]

/-- Exact arithmetic: `(a + b) - b == a` holds exactly when `b.lower == b.upper`, which
for an ascending `b` says that `b` is crisp; in particular
`a - crisp_zero == a`. -/
theorem sub_undoes_add_iff_crisp (a b : TriFuzzyNum R) :
    (op_eq (op_sub (op_add a b) b) a = true ↔ b.lower_value = b.upper_value) ∧
    (b.Ascending → (b.lower_value = b.upper_value ↔
      b.lower_value = b.modal_value ∧ b.modal_value = b.upper_value)) ∧
    op_eq (op_sub a crisp_zero) a = true := by
  obtain ⟨z1, z2, z3, _⟩ := crisp_number_components (0 : R)
  refine ⟨?_, ?_, ?_⟩
  · rw [op_eq_iff]
    obtain ⟨h1, h2, h3, _⟩ := op_sub_components (op_add a b) b
    obtain ⟨g1, g2, g3, _⟩ := op_add_components a b
    rw [h1, h2, h3, g1, g2, g3]
    simp only [lower_value, upper_value]
    constructor
    · rintro ⟨e1, _, _⟩
      linarith
    · intro e
      rw [e]
      exact ⟨by ring, by ring, by ring⟩
  · rintro ⟨h1, h2⟩
    simp only [lower_value, modal_value, upper_value]
    constructor
    · intro e
      exact ⟨le_antisymm h1 (e ▸ h2), le_antisymm h2 (e ▸ h1)⟩
    · rintro ⟨e1, e2⟩
      exact e1.trans e2
  · rw [op_eq_iff]
    obtain ⟨h1, h2, h3, _⟩ := op_sub_components a (crisp_zero : TriFuzzyNum R)
    rw [h1, h2, h3]
    unfold crisp_zero
    rw [z1, z2, z3]
    exact ⟨sub_zero _, sub_zero _, sub_zero _⟩

/-! ## Crisp numbers and translations in the rank order -/

theorem rank_key_crisp (t : TriFuzzyNum ℝ) (v : ℝ) (hl : t.l = v) (hm : t.m = v) (hu : t.u = v) :
    rank_key Real.sqrt t = (v, 1, v) := by
  rw [rank_key_closed_form, hl, hm, hu]
  simp only [sub_self, mul_zero, add_zero, Real.sqrt_one]
  refine Prod.ext ?_ (Prod.ext ?_ rfl)
  · simp only; ring
  · simp only; ring

theorem cacheOk_of_flag_false (sqrt : R → R) {t : TriFuzzyNum R}
    (h : t.is_rank_computed = false) : CacheOk sqrt t := by
  intro hf
  rw [h] at hf
  exact Bool.noConfusion hf

/-- Exact arithmetic: the rank key of the crisp number `(v, v, v)` is `(v, 1, v)`, so
crisp numbers are ranked as the reals they stand for:
`crisp(v) < crisp(w)` exactly when `v < w`, and they are rank-equivalent
exactly when `v = w`. -/
theorem crisp_rank_order_is_real_order (v w : ℝ) :
    (compute_rank Real.sqrt (crisp_number v)).rank = (v, 1, v) ∧
    (op_lt Real.sqrt (crisp_number v) (crisp_number w) = true ↔ v < w) ∧
    ((op_spaceship Real.sqrt (crisp_number v) (crisp_number w)).1 = .eq ↔ v = w) := by
  obtain ⟨v1, v2, v3, v4⟩ := crisp_number_components v
  obtain ⟨w1, w2, w3, w4⟩ := crisp_number_components w
  have kv : rank_key Real.sqrt (crisp_number v) = (v, 1, v) := rank_key_crisp _ v v1 v2 v3
  have kw : rank_key Real.sqrt (crisp_number w) = (w, 1, w) := rank_key_crisp _ w w1 w2 w3
  have uv := rank_used_of_cacheOk (cacheOk_of_flag_false Real.sqrt v4)
  have uw := rank_used_of_cacheOk (cacheOk_of_flag_false Real.sqrt w4)
  refine ⟨kv, ?_, ?_⟩
  · rw [op_lt_iff, uv, uw, kv, kw]
    simp only [lex_lt]
    constructor
    · rintro (h | ⟨_, h | ⟨_, h⟩⟩)
      · exact h
      · exact absurd h (lt_irrefl _)
      · exact h
    · intro h
      exact Or.inl h
  · rw [op_spaceship_result, tuple_cmp_eq_eq, uv, uw, kv, kw]
    simp only [Prod.mk.injEq]
    constructor
    · intro h
      exact h.1
    · intro h
      simp [h]

theorem rank_key_translate (a t : TriFuzzyNum ℝ) (c : ℝ) (hl : t.l = a.l + c)
    (hm : t.m = a.m + c) (hu : t.u = a.u + c) :
    rank_key Real.sqrt t =
      ((rank_key Real.sqrt a).1 + c, (rank_key Real.sqrt a).2.1, (rank_key Real.sqrt a).2.2 + c) := by
  rw [rank_key_closed_form, rank_key_closed_form, hl, hm, hu]
  have e1 : a.m + c - (a.l + c) = a.m - a.l := by ring
  have e2 : a.u + c - (a.m + c) = a.u - a.m := by ring
  rw [e1, e2]
  refine Prod.ext ?_ (Prod.ext rfl rfl)
  simp only
  ring

theorem lex_lt_translate (p q : ℝ × ℝ × ℝ) (c : ℝ) :
    lex_lt (p.1 + c, p.2.1, p.2.2 + c) (q.1 + c, q.2.1, q.2.2 + c) ↔ lex_lt p q := by
  simp only [lex_lt, add_lt_add_iff_right, add_left_inj]

/-- Exact arithmetic: adding the crisp number `(c, c, c)` to `a` turns the rank key
`(k1, k2, k3)` of `a` into `(k1 + c, k2, k3 + c)`; hence for reachable `a`
and `b` the comparison `a < b` holds exactly when
`a + (c, c, c) < b + (c, c, c)` does. -/
theorem rank_order_is_translation_invariant (a b : TriFuzzyNum ℝ) (c : ℝ)
    (ha : TriFuzzyNum.Reachable Real.sqrt a) (hb : TriFuzzyNum.Reachable Real.sqrt b) :
    (compute_rank Real.sqrt (op_add a (crisp_number c))).rank =
      ((compute_rank Real.sqrt a).rank.1 + c, (compute_rank Real.sqrt a).rank.2.1,
        (compute_rank Real.sqrt a).rank.2.2 + c) ∧
    (op_lt Real.sqrt a b = true ↔
      op_lt Real.sqrt (op_add a (crisp_number c)) (op_add b (crisp_number c)) = true) := by
  obtain ⟨c1, c2, c3, _⟩ := crisp_number_components c
  have key : ∀ t : TriFuzzyNum ℝ, rank_key Real.sqrt (op_add t (crisp_number c)) =
      ((rank_key Real.sqrt t).1 + c, (rank_key Real.sqrt t).2.1,
        (rank_key Real.sqrt t).2.2 + c) := by
    intro t
    obtain ⟨h1, h2, h3, _⟩ := op_add_components t (crisp_number c)
    exact rank_key_translate t _ c (by rw [h1, c1]) (by rw [h2, c2]) (by rw [h3, c3])
  have used : ∀ t : TriFuzzyNum ℝ, rank_used Real.sqrt (op_add t (crisp_number c)) =
      rank_key Real.sqrt (op_add t (crisp_number c)) := fun t =>
    rank_used_of_cacheOk (cacheOk_of_flag_false Real.sqrt (op_add_components t _).2.2.2)
  refine ⟨key a, ?_⟩
  rw [op_lt_iff, op_lt_iff, used a, used b, key a, key b, lex_lt_translate,
    rank_used_of_cacheOk ha.cacheOk, rank_used_of_cacheOk hb.cacheOk]

/-- Example in exact arithmetic: `(0, 1, 2)` and `(1, 1, 4)` translated by `10`. -/
theorem rank_order_is_translation_invariant_witness :
    op_lt Real.sqrt (TriFuzzyNum.new 0 1 2) (TriFuzzyNum.new 1 1 4) = true ↔
      op_lt Real.sqrt (op_add (TriFuzzyNum.new 0 1 2) (crisp_number 10))
        (op_add (TriFuzzyNum.new 1 1 4) (crisp_number 10)) = true :=
  (rank_order_is_translation_invariant _ _ 10 (.new 0 1 2) (.new 1 1 4)).2

/-! ## Order and equality of doubles -/

theorem lex3_irrefl {α : Type} [LinearOrder α] (p : α × α × α) : ¬ lex3 p p := by
  simp [lex3]

theorem lex3_trans {α : Type} [LinearOrder α] {p q r : α × α × α} (h1 : lex3 p q)
    (h2 : lex3 q r) : lex3 p r := by
  unfold lex3 at *
  rcases h1 with h | ⟨e, h | ⟨e2, h⟩⟩ <;> rcases h2 with g | ⟨f, g | ⟨f2, g⟩⟩
  · exact Or.inl (lt_trans h g)
  · exact Or.inl (f ▸ h)
  · exact Or.inl (f ▸ h)
  · exact Or.inl (e ▸ g)
  · exact Or.inr ⟨e.trans f, Or.inl (lt_trans h g)⟩
  · exact Or.inr ⟨e.trans f, Or.inl (f2 ▸ h)⟩
  · exact Or.inl (e ▸ g)
  · exact Or.inr ⟨e.trans f, Or.inl (e2 ▸ g)⟩
  · exact Or.inr ⟨e.trans f, Or.inr ⟨e2.trans f2, lt_trans h g⟩⟩

theorem lex3_asymm {α : Type} [LinearOrder α] {p q : α × α × α} (h : lex3 p q) : ¬ lex3 q p :=
  fun h2 => lex3_irrefl p (lex3_trans h h2)

theorem lex3_total {α : Type} [LinearOrder α] (p q : α × α × α) :
    lex3 p q ∨ p = q ∨ lex3 q p := by
  obtain ⟨p1, p2, p3⟩ := p
  obtain ⟨q1, q2, q3⟩ := q
  simp only [lex3, Prod.mk.injEq]
  rcases lt_trichotomy p1 q1 with h1 | h1 | h1
  · exact Or.inl (Or.inl h1)
  · rcases lt_trichotomy p2 q2 with h2 | h2 | h2
    · exact Or.inl (Or.inr ⟨h1, Or.inl h2⟩)
    · rcases lt_trichotomy p3 q3 with h3 | h3 | h3
      · exact Or.inl (Or.inr ⟨h1, Or.inr ⟨h2, h3⟩⟩)
      · exact Or.inr (Or.inl ⟨h1, h2, h3⟩)
      · exact Or.inr (Or.inr (Or.inr ⟨h1.symm, Or.inr ⟨h2.symm, h3⟩⟩))
    · exact Or.inr (Or.inr (Or.inr ⟨h1.symm, Or.inl h2⟩))
  · exact Or.inr (Or.inr (Or.inl h1))

namespace F64

theorem pos_lt_iff (x y : F64) :
    x.pos < y.pos ↔ x.cls < y.cls ∨ (x.cls = y.cls ∧ x.units < y.units) := by
  unfold pos
  rw [Prod.Lex.lt_iff]

theorem pos_eq_iff (x y : F64) : x.pos = y.pos ↔ x.cls = y.cls ∧ x.units = y.units := by
  unfold pos
  simp [Prod.ext_iff]

theorem lt_iff_pos (x y : F64) (hx : x.isNaN = false) (hy : y.isNaN = false) :
    lt x y = true ↔ x.pos < y.pos := by
  rw [pos_lt_iff]
  cases x with
  | nan => simp [isNaN] at hx
  | inf a =>
    cases y with
    | nan => simp [isNaN] at hy
    | inf b => cases a <;> cases b <;> simp [lt, units, cls]
    | fin b k => cases a <;> simp [lt, units, cls]
  | fin a j =>
    cases y with
    | nan => simp [isNaN] at hy
    | inf b => cases b <;> simp [lt, units, cls]
    | fin b k => simp [lt, units, cls]

theorem eq_iff_pos (x y : F64) (hx : x.isNaN = false) (hy : y.isNaN = false) :
    eq x y = true ↔ x.pos = y.pos := by
  rw [pos_eq_iff]
  cases x with
  | nan => simp [isNaN] at hx
  | inf a =>
    cases y with
    | nan => simp [isNaN] at hy
    | inf b => cases a <;> cases b <;> simp [eq, units, cls]
    | fin b k => cases a <;> simp [eq, units, cls]
  | fin a j =>
    cases y with
    | nan => simp [isNaN] at hy
    | inf b => cases b <;> simp [eq, units, cls]
    | fin b k => simp [eq, units, cls]

theorem three_way_of_pos_lt {x y : F64} (hx : x.isNaN = false) (hy : y.isNaN = false)
    (h : x.pos < y.pos) : three_way x y = .less := by
  unfold three_way
  rw [if_pos ((lt_iff_pos x y hx hy).mpr h)]

theorem three_way_of_pos_gt {x y : F64} (hx : x.isNaN = false) (hy : y.isNaN = false)
    (h : y.pos < x.pos) : three_way x y = .greater := by
  unfold three_way
  have h1 : ¬ lt x y = true := fun h1 => lt_asymm h ((lt_iff_pos x y hx hy).mp h1)
  rw [if_neg h1, if_pos ((lt_iff_pos y x hy hx).mpr h)]

theorem three_way_of_pos_eq {x y : F64} (hx : x.isNaN = false) (hy : y.isNaN = false)
    (h : x.pos = y.pos) : three_way x y = .equivalent := by
  unfold three_way
  have h1 : ¬ lt x y = true := fun h1 => (ne_of_lt ((lt_iff_pos x y hx hy).mp h1)) h
  have h2 : ¬ lt y x = true := fun h2 => (ne_of_lt ((lt_iff_pos y x hy hx).mp h2)) h.symm
  rw [if_neg h1, if_neg h2, if_pos ((eq_iff_pos x y hx hy).mpr h)]

theorem three_way_nan_left (y : F64) : three_way nan y = .unordered := by
  cases y <;> simp [three_way, lt, eq]

end F64

namespace Dbl

theorem tuple_cmp_less {p q : F64 × F64 × F64} (hp : NoNaN p) (hq : NoNaN q) :
    tuple_cmp p q = .less ↔ lex3 (F64.pos3 p) (F64.pos3 q) := by
  obtain ⟨p1, p2, p3⟩ := p
  obtain ⟨q1, q2, q3⟩ := q
  obtain ⟨hp1, hp2, hp3⟩ := hp
  obtain ⟨hq1, hq2, hq3⟩ := hq
  simp only at hp1 hp2 hp3 hq1 hq2 hq3
  simp only [tuple_cmp, lex3, F64.pos3]
  rcases lt_trichotomy p1.pos q1.pos with h1 | h1 | h1
  · simp [F64.three_way_of_pos_lt hp1 hq1 h1, h1]
  · rw [F64.three_way_of_pos_eq hp1 hq1 h1]
    rcases lt_trichotomy p2.pos q2.pos with h2 | h2 | h2
    · simp [F64.three_way_of_pos_lt hp2 hq2 h2, h1, h2]
    · rw [F64.three_way_of_pos_eq hp2 hq2 h2]
      rcases lt_trichotomy p3.pos q3.pos with h3 | h3 | h3
      · simp [F64.three_way_of_pos_lt hp3 hq3 h3, h1, h2, h3]
      · simp [F64.three_way_of_pos_eq hp3 hq3 h3, h1, h2, h3]
      · simp [F64.three_way_of_pos_gt hp3 hq3 h3, h1, h2, h3.le, h3.ne']
    · simp [F64.three_way_of_pos_gt hp2 hq2 h2, h1, h2.le, h2.ne']
  · simp [F64.three_way_of_pos_gt hp1 hq1 h1, h1.le, h1.ne']

theorem tuple_cmp_greater {p q : F64 × F64 × F64} (hp : NoNaN p) (hq : NoNaN q) :
    tuple_cmp p q = .greater ↔ lex3 (F64.pos3 q) (F64.pos3 p) := by
  obtain ⟨p1, p2, p3⟩ := p
  obtain ⟨q1, q2, q3⟩ := q
  obtain ⟨hp1, hp2, hp3⟩ := hp
  obtain ⟨hq1, hq2, hq3⟩ := hq
  simp only at hp1 hp2 hp3 hq1 hq2 hq3
  simp only [tuple_cmp, lex3, F64.pos3]
  rcases lt_trichotomy p1.pos q1.pos with h1 | h1 | h1
  · simp [F64.three_way_of_pos_lt hp1 hq1 h1, h1.le, h1.ne']
  · rw [F64.three_way_of_pos_eq hp1 hq1 h1]
    rcases lt_trichotomy p2.pos q2.pos with h2 | h2 | h2
    · simp [F64.three_way_of_pos_lt hp2 hq2 h2, h1, h2.le, h2.ne']
    · rw [F64.three_way_of_pos_eq hp2 hq2 h2]
      rcases lt_trichotomy p3.pos q3.pos with h3 | h3 | h3
      · simp [F64.three_way_of_pos_lt hp3 hq3 h3, h1, h2, h3.le, h3.ne']
      · simp [F64.three_way_of_pos_eq hp3 hq3 h3, h1, h2, h3]
      · simp [F64.three_way_of_pos_gt hp3 hq3 h3, h1, h2, h3]
    · simp [F64.three_way_of_pos_gt hp2 hq2 h2, h1, h2]
  · simp [F64.three_way_of_pos_gt hp1 hq1 h1, h1]

theorem tuple_cmp_equivalent {p q : F64 × F64 × F64} (hp : NoNaN p) (hq : NoNaN q) :
    tuple_cmp p q = .equivalent ↔ F64.pos3 p = F64.pos3 q := by
  obtain ⟨p1, p2, p3⟩ := p
  obtain ⟨q1, q2, q3⟩ := q
  obtain ⟨hp1, hp2, hp3⟩ := hp
  obtain ⟨hq1, hq2, hq3⟩ := hq
  simp only at hp1 hp2 hp3 hq1 hq2 hq3
  simp only [tuple_cmp, F64.pos3, Prod.mk.injEq]
  rcases lt_trichotomy p1.pos q1.pos with h1 | h1 | h1
  · simp [F64.three_way_of_pos_lt hp1 hq1 h1, h1.ne]
  · rw [F64.three_way_of_pos_eq hp1 hq1 h1]
    rcases lt_trichotomy p2.pos q2.pos with h2 | h2 | h2
    · simp [F64.three_way_of_pos_lt hp2 hq2 h2, h1, h2.ne]
    · rw [F64.three_way_of_pos_eq hp2 hq2 h2]
      rcases lt_trichotomy p3.pos q3.pos with h3 | h3 | h3
      · simp [F64.three_way_of_pos_lt hp3 hq3 h3, h1, h2, h3.ne]
      · simp [F64.three_way_of_pos_eq hp3 hq3 h3, h1, h2, h3]
      · simp [F64.three_way_of_pos_gt hp3 hq3 h3, h1, h2, h3.ne']
    · simp [F64.three_way_of_pos_gt hp2 hq2 h2, h1, h2.ne']
  · simp [F64.three_way_of_pos_gt hp1 hq1 h1, h1.ne']

end Dbl

/-! ## Rounding -/

namespace F64

theorem size_div_pow {n j : Nat} (h : 2 ^ j ≤ n) : Nat.size (n / 2 ^ j) + j = Nat.size n := by
  have hpos : 0 < 2 ^ j := Nat.two_pow_pos _
  apply le_antisymm
  · have h1 : 1 ≤ n / 2 ^ j := (Nat.le_div_iff_mul_le hpos).mpr (by simpa using h)
    have h2 : 0 < Nat.size (n / 2 ^ j) := Nat.size_pos.mpr h1
    have h3 : Nat.size (n / 2 ^ j) - 1 < Nat.size (n / 2 ^ j) := Nat.sub_lt h2 (by decide)
    have h4 : 2 ^ (Nat.size (n / 2 ^ j) - 1) ≤ n / 2 ^ j := Nat.lt_size.mp h3
    have h5 : 2 ^ (Nat.size (n / 2 ^ j) - 1) * 2 ^ j ≤ n := (Nat.le_div_iff_mul_le hpos).mp h4
    rw [← pow_add] at h5
    have h6 := Nat.lt_size.mpr h5
    omega
  · rw [Nat.size_le, pow_add]
    exact (Nat.div_lt_iff_lt_mul hpos).mp (Nat.lt_size_self _)

theorem bitlenAux_eq (k : Nat) : ∀ acc n : Nat, n < 2 ^ 2 ^ k →
    bitlenAux k acc n = acc + Nat.size n := by
  induction k with
  | zero =>
    intro acc n hn
    have hn2 : n < 2 := by simpa using hn
    interval_cases n
    · simp [bitlenAux]
    · simp [bitlenAux, Nat.size_one]
  | succ k ih =>
    intro acc n hn
    unfold bitlenAux
    have hpos : 0 < 2 ^ 2 ^ k := Nat.two_pow_pos _
    split_ifs with h
    · have hlt : n / 2 ^ 2 ^ k < 2 ^ 2 ^ k := by
        rw [Nat.div_lt_iff_lt_mul hpos, ← pow_add]
        have : 2 ^ k + 2 ^ k = 2 ^ (k + 1) := by rw [pow_succ]; ring
        rwa [this]
      rw [ih _ _ hlt, ← size_div_pow h]
      ring
    · exact ih acc n (not_le.mp h)

theorem bitlen_eq_size {n : Nat} (h : n < 2 ^ 8192) : bitlen n = Nat.size n := by
  unfold bitlen
  have e : (2 : Nat) ^ 13 = 8192 := by decide
  rw [bitlenAux_eq 13 0 n (by rw [e]; exact h), Nat.zero_add]

theorem bitlen_zero : bitlen 0 = 0 := by decide!

theorem round_eq (neg : Bool) (N D : Nat) :
    round neg N D =
      if roundAt (bitlen (N / D) - 53) N D < 2 ^ 2098 then
        fin neg (roundAt (bitlen (N / D) - 53) N D)
      else inf neg := by
  unfold round
  rfl

/-- Rounding a whole number of units that is a multiple of the spacing at its
size changes nothing, unless it reaches `2^1024`. -/
theorem round_of_dvd (neg : Bool) {k : Nat} (hmod : k % 2 ^ (bitlen k - 53) = 0) :
    round neg k 1 = if k < 2 ^ 2098 then fin neg k else inf neg := by
  rw [round_eq]
  unfold roundAt
  simp only [Nat.div_one, Nat.one_mul]
  have hpos : 0 < 2 ^ (bitlen k - 53) := Nat.two_pow_pos _
  rw [hmod]
  simp only [Nat.mul_zero, hpos, if_true]
  rw [Nat.div_mul_cancel (Nat.dvd_of_mod_eq_zero hmod)]

/-- Rounding is the identity on the magnitude of a double. -/
theorem round_representable (neg : Bool) {k : Nat} (h : Representable k) :
    round neg k 1 = fin neg k := by
  rw [round_of_dvd neg h.1]
  exact if_pos h.2

/-- Rounding depends on the quotient only. -/
theorem round_scale (neg : Bool) (N D : Nat) {c : Nat} (hc : 0 < c) :
    round neg (N * c) (D * c) = round neg N D := by
  rw [round_eq, round_eq]
  have e1 : N * c / (D * c) = N / D := Nat.mul_div_mul_right N D hc
  rw [e1]
  generalize bitlen (N / D) - 53 = s
  simp only [roundAt]
  have e2 : D * c * 2 ^ s = D * 2 ^ s * c := by ring
  rw [e2, Nat.mul_div_mul_right N (D * 2 ^ s) hc, Nat.mul_mod_mul_right]
  have e3 : 2 * (N % (D * 2 ^ s) * c) < D * 2 ^ s * c ↔ 2 * (N % (D * 2 ^ s)) < D * 2 ^ s := by
    rw [← Nat.mul_assoc]
    exact Nat.mul_lt_mul_right hc
  have e4 : 2 * (N % (D * 2 ^ s) * c) = D * 2 ^ s * c ↔ 2 * (N % (D * 2 ^ s)) = D * 2 ^ s := by
    rw [← Nat.mul_assoc]
    exact Nat.mul_left_inj (Nat.pos_iff_ne_zero.mp hc)
  simp only [e3, e4]

theorem round_zero (neg : Bool) {D : Nat} (hD : 0 < D) : round neg 0 D = fin neg 0 := by
  rw [round_eq]
  have e : bitlen (0 / D) - 53 = 0 := by rw [Nat.zero_div, bitlen_zero]
  rw [e]
  unfold roundAt
  simp only [pow_zero, Nat.mul_one, Nat.zero_mod, Nat.mul_zero, hD, if_true, Nat.zero_div]
  exact if_pos (Nat.two_pow_pos 2098)

/-- Twice the magnitude of a double is a multiple of the spacing at its
size. -/
theorem double_mod {k : Nat} (h : Representable k) :
    2 * k % 2 ^ (bitlen (2 * k) - 53) = 0 := by
  obtain ⟨hmod, hlt⟩ := h
  rcases Nat.eq_zero_or_pos k with h0 | hpos
  · subst h0
    rw [Nat.mul_zero, Nat.zero_mod]
  have hpow : (2 : Nat) ^ 2098 < 2 ^ 8191 :=
    Nat.pow_lt_pow_right (Nat.lt_succ_self 1) (Nat.lt_of_sub_eq_succ (rfl : 8191 - 2098 = 6092 + 1))
  have hstep : (2 : Nat) ^ 8191 * 2 = 2 ^ 8192 := (pow_succ 2 8191).symm
  have hk1 : k < 2 ^ 8191 := lt_trans hlt hpow
  have hk : k < 2 ^ 8192 := by omega
  have h2k : 2 * k < 2 ^ 8192 := by omega
  rw [bitlen_eq_size hk] at hmod
  rw [bitlen_eq_size h2k]
  have hs : Nat.size (2 * k) ≤ Nat.size k + 1 := by
    rw [Nat.size_le, pow_succ, Nat.mul_comm]
    exact Nat.mul_lt_mul_of_pos_right (Nat.lt_size_self k) (by decide)
  have hd : 2 ^ (Nat.size (2 * k) - 53) ∣ 2 ^ (Nat.size k - 53 + 1) :=
    pow_dvd_pow 2 (by omega)
  have hd2 : 2 ^ (Nat.size k - 53 + 1) ∣ 2 * k := by
    rw [pow_succ, Nat.mul_comm]
    exact Nat.mul_dvd_mul_left 2 (Nat.dvd_of_mod_eq_zero hmod)
  exact Nat.mod_eq_zero_of_dvd (dvd_trans hd hd2)

end F64

namespace F64

theorem signed_neg_decide {a : Bool} {k : Nat} (hk : k ≠ 0) :
    decide (signed a k < 0) = a := by
  cases a
  · simp [signed]
  · simp only [signed, if_true, decide_eq_true_eq]
    omega

theorem signed_natAbs (a : Bool) (k : Nat) : (signed a k).natAbs = k := by
  cases a <;> simp [signed]

theorem signed_eq_zero {a : Bool} {k : Nat} : signed a k = 0 ↔ k = 0 := by
  cases a <;> simp [signed]

theorem lt_irrefl (x : F64) : lt x x = false := by
  cases x with
  | nan => rfl
  | inf a => cases a <;> rfl
  | fin a k => simp [lt]

theorem ofNat_zero : ofNat 0 = fin false 0 := by decide!

theorem ofNat_one : ofNat 1 = fin false (2 ^ 1074) := by decide!

theorem ofNat_two : ofNat 2 = fin false (2 ^ 1075) := by decide!

/-- For a finite `x`, `x - x` is `+0`. -/
theorem sub_self_fin (a : Bool) (k : Nat) : sub (fin a k) (fin a k) = fin false 0 := by
  cases a <;> simp [sub, neg, add, signed]

/-- For a double `x` that is not a NaN, `x - (+0)` is `x`. -/
theorem sub_zero {x : F64} (h : x.IsDouble) (hn : x.isNaN = false) :
    sub x (fin false 0) = x := by
  cases x with
  | nan => simp [isNaN] at hn
  | inf a => rfl
  | fin a k =>
    have hr : Representable k := h
    by_cases hk : k = 0
    · subst hk
      cases a <;> simp [sub, neg, add, signed]
    · have hs : signed a k + signed true 0 = signed a k := by simp [signed]
      simp only [sub, neg, add, Bool.not_false, hs]
      rw [if_neg (fun h0 => hk (signed_eq_zero.mp h0)), signed_natAbs]
      rw [signed_neg_decide hk, round_representable a hr]

/-- For a finite double `x` that is not zero, `(±0) + x` is `x`. -/
theorem zero_add {a b : Bool} {k : Nat} (h : Representable k) (hk : k ≠ 0) :
    add (fin b 0) (fin a k) = fin a k := by
  have hs : signed b 0 + signed a k = signed a k := by cases b <;> simp [signed]
  simp only [add, hs]
  rw [if_neg (fun h0 => hk (signed_eq_zero.mp h0)), signed_natAbs]
  rw [signed_neg_decide hk, round_representable a h]

/-- For a finite `x`, `(+0) * x` is a zero with the sign of `x`. -/
theorem zero_mul (a : Bool) (k : Nat) : mul (fin false 0) (fin a k) = fin a 0 := by
  simp only [mul, Nat.zero_mul, Bool.false_xor]
  exact round_zero a (Nat.two_pow_pos 1074)

/-- For a finite double `x`, `1 * x` is `x`. -/
theorem one_mul {a : Bool} {k : Nat} (h : Representable k) :
    mul (fin false (2 ^ 1074)) (fin a k) = fin a k := by
  simp only [mul, Bool.false_xor]
  have e : round a (2 ^ 1074 * k) (2 ^ 1074) = round a (k * 2 ^ 1074) (1 * 2 ^ 1074) := by
    rw [Nat.mul_comm, Nat.one_mul]
  rw [e, round_scale a k 1 (Nat.two_pow_pos 1074), round_representable a h]

/-- For a finite double `x` that is not zero, `x + x` has twice the
magnitude, or is an infinity when that reaches `2^1024`. -/
theorem add_self {a : Bool} {k : Nat} (h : Representable k) (hk : k ≠ 0) :
    add (fin a k) (fin a k) = if 2 * k < 2 ^ 2098 then fin a (2 * k) else inf a := by
  have hs : signed a k + signed a k = signed a (2 * k) := by
    cases a
    · simp only [signed, Bool.false_eq_true, if_false]
      push_cast
      ring
    · simp only [signed, if_true]
      push_cast
      ring
  have hk2 : 2 * k ≠ 0 := by omega
  simp only [add, hs]
  rw [if_neg (fun h0 => hk2 (signed_eq_zero.mp h0)), signed_natAbs, signed_neg_decide hk2,
    round_of_dvd a (double_mod h)]

/-- For a finite double `x`, `(2 * x) / 2` is `x`. -/
theorem double_div_two {a : Bool} {k : Nat} (h : Representable k) :
    div (fin a (2 * k)) (fin false (2 ^ 1075)) = fin a k := by
  have hne : (2 : Nat) ^ 1075 ≠ 0 := Nat.pos_iff_ne_zero.mp (Nat.two_pow_pos 1075)
  simp only [div, Bool.xor_false]
  rw [if_neg hne]
  have e : round a (2 * k * 2 ^ 1074) (2 ^ 1075) = round a (k * 2 ^ 1075) (1 * 2 ^ 1075) := by
    rw [Nat.one_mul, Nat.mul_comm 2 k, Nat.mul_assoc, ← pow_succ' 2 1074]
  rw [e, round_scale a k 1 (Nat.two_pow_pos 1075), round_representable a h]

end F64

/-! ## Rounding is monotone -/

namespace F64

end F64

/-! ## Addition and division are monotone on doubles -/

namespace F64

end F64

/-! ## The results of rounding are doubles -/

namespace F64

end F64

/-! ## The rank order on doubles -/

namespace Dbl

theorem spaceship_result (a b : TriFuzzyNum F64) :
    (op_spaceship a b).1 = tuple_cmp (rank_used a) (rank_used b) := rfl

theorem rank_used_stable (t : TriFuzzyNum F64) :
    rank_used (if !t.is_rank_computed then compute_rank t else t) = rank_used t := by
  cases hf : t.is_rank_computed <;> simp [rank_used, hf, compute_rank]

theorem op_lt_iff_lex3 {a b : TriFuzzyNum F64} (ha : NoNaN (rank_used a)) (hb : NoNaN (rank_used b)) :
    op_lt a b = true ↔ lex3 (F64.pos3 (rank_used a)) (F64.pos3 (rank_used b)) := by
  rw [← tuple_cmp_less ha hb, op_lt, spaceship_result]
  cases tuple_cmp (rank_used a) (rank_used b) <;> decide

theorem op_gt_iff_lex3 {a b : TriFuzzyNum F64} (ha : NoNaN (rank_used a)) (hb : NoNaN (rank_used b)) :
    op_gt a b = true ↔ lex3 (F64.pos3 (rank_used b)) (F64.pos3 (rank_used a)) := by
  rw [← tuple_cmp_greater ha hb, op_gt, spaceship_result]
  cases tuple_cmp (rank_used a) (rank_used b) <;> decide

end Dbl

/-! ## Crisp numbers on doubles -/

namespace Dbl

theorem sort3_same (v : F64) : sort3 v v v = (v, v, v) := by
  simp [sort3, F64.lt_irrefl]

theorem crisp_number_eq (v : F64) :
    crisp_number v =
      { rank := (F64.ofNat 0, F64.ofNat 0, F64.ofNat 0), is_rank_computed := false,
        l := v, m := v, u := v } := by
  simp only [crisp_number, new, adjust_values, sort3_same]

theorem crisp_const_d :
    F64.sqrt (F64.add (F64.ofNat 1) (F64.fin false 0)) = F64.fin false (2 ^ 1074) := by
  decide!

theorem crisp_const_z :
    F64.add (F64.add (F64.fin false 0) (F64.fin false (2 ^ 1074))) (F64.fin false (2 ^ 1074)) =
      F64.fin false (2 ^ 1075) := by
  decide!

theorem crisp_const_y :
    F64.div (F64.fin false 0) (F64.fin false (2 ^ 1075)) = F64.fin false 0 := by
  decide!

theorem crisp_const_half_y :
    F64.div (F64.fin false 0) (F64.ofNat 2) = F64.fin false 0 := by
  decide!

theorem crisp_const_one_minus_y :
    F64.sub (F64.ofNat 1) (F64.fin false 0) = F64.ofNat 1 := by
  decide!

theorem crisp_key_zero (a : Bool) :
    (compute_rank (crisp_number (F64.fin a 0))).rank = (F64.fin a 0, F64.ofNat 1, F64.fin a 0) := by
  cases a
  · decide!
  · decide!

theorem crisp_key_general {a : Bool} {k : Nat} (h : F64.Representable k) :
    (compute_rank (crisp_number (F64.fin a k))).rank =
      (if 2 * k < 2 ^ 2098 then F64.fin a k else F64.inf a, F64.ofNat 1, F64.fin a k) := by
  by_cases hk : k = 0
  · subst hk
    rw [if_pos (Nat.two_pow_pos 2098)]
    exact crisp_key_zero a
  rw [crisp_number_eq]
  simp only [compute_rank, F64.sub_self_fin, crisp_const_d, crisp_const_z, crisp_const_y,
    crisp_const_half_y, crisp_const_one_minus_y, F64.zero_mul, F64.one_mul h,
    F64.zero_add h hk, F64.add_self h hk]
  by_cases hlt : 2 * k < 2 ^ 2098
  · rw [if_pos hlt, if_pos hlt, F64.double_div_two h, F64.sub_zero (x := F64.fin a k) h rfl]
  · rw [if_neg hlt, if_neg hlt]
    cases a <;> rfl

theorem crisp_key {a : Bool} {k : Nat} (h : F64.Representable k)
    (h2 : (F64.add (F64.fin a k) (F64.fin a k)).isFinite = true) :
    (compute_rank (crisp_number (F64.fin a k))).rank =
      (F64.fin a k, F64.ofNat 1, F64.fin a k) := by
  rw [crisp_key_general h]
  by_cases hk : k = 0
  · subst hk
    rw [if_pos (Nat.two_pow_pos 2098)]
  · rw [F64.add_self h hk] at h2
    by_cases hlt : 2 * k < 2 ^ 2098
    · rw [if_pos hlt]
    · rw [if_neg hlt] at h2
      exact absurd h2 (by simp [F64.isFinite])

theorem crisp_key_overflow {a : Bool} {k : Nat} (h : F64.Representable k)
    (h2 : (F64.add (F64.fin a k) (F64.fin a k)).isFinite = false) :
    (compute_rank (crisp_number (F64.fin a k))).rank =
        (F64.add (F64.fin a k) (F64.fin a k), F64.ofNat 1, F64.fin a k) ∧
      (F64.add (F64.fin a k) (F64.fin a k) = F64.inf false ∨
        F64.add (F64.fin a k) (F64.fin a k) = F64.inf true) := by
  have hk : k ≠ 0 := by
    intro h0
    subst h0
    cases a <;> simp [F64.add, F64.signed, F64.isFinite] at h2
  rw [crisp_key_general h]
  rw [F64.add_self h hk] at h2 ⊢
  by_cases hlt : 2 * k < 2 ^ 2098
  · rw [if_pos hlt] at h2
    simp [F64.isFinite] at h2
  · rw [if_neg hlt, if_neg hlt]
    cases a
    · exact ⟨rfl, Or.inl rfl⟩
    · exact ⟨rfl, Or.inr rfl⟩

/-- The first component of the rank key of a crisp number is monotone in the
value, and the value breaks its ties. -/
theorem crisp_key_order (a b : Bool) (j k : Nat) :
    lex3
        (F64.pos3 (if 2 * j < 2 ^ 2098 then F64.fin a j else F64.inf a, F64.ofNat 1, F64.fin a j))
        (F64.pos3 (if 2 * k < 2 ^ 2098 then F64.fin b k else F64.inf b, F64.ofNat 1, F64.fin b k))
      ↔ F64.signed a j < F64.signed b k := by
  simp only [lex3, F64.pos3, lt_self_iff_false, true_and, false_or]
  have hfin : ∀ (x y : Bool) (m n : Nat),
      ((F64.fin x m).pos < (F64.fin y n).pos ↔ F64.signed x m < F64.signed y n) ∧
      ((F64.fin x m).pos = (F64.fin y n).pos ↔ F64.signed x m = F64.signed y n) := by
    intro x y m n
    rw [F64.pos_lt_iff, F64.pos_eq_iff]
    simp [F64.cls, F64.units]
  have hB : 0 < (2 : Nat) ^ 2098 := Nat.two_pow_pos 2098
  generalize (2 : Nat) ^ 2098 = B at hB ⊢
  by_cases hj : 2 * j < B <;> by_cases hk : 2 * k < B
  · rw [if_pos hj, if_pos hk, (hfin a b j k).1, (hfin a b j k).2]
    constructor
    · rintro (h | ⟨_, h⟩) <;> exact h
    · exact fun h => Or.inl h
  · rw [if_pos hj, if_neg hk, (hfin a b j k).1, F64.pos_lt_iff, F64.pos_eq_iff]
    cases a <;> cases b <;> simp [F64.cls, F64.units, F64.signed] <;> omega
  · rw [if_neg hj, if_pos hk, (hfin a b j k).1, F64.pos_lt_iff, F64.pos_eq_iff]
    cases a <;> cases b <;> simp [F64.cls, F64.units, F64.signed] <;> omega
  · rw [if_neg hj, if_neg hk, (hfin a b j k).1, F64.pos_lt_iff, F64.pos_eq_iff]
    cases a <;> cases b <;> simp [F64.cls, F64.units, F64.signed] <;> omega

/-- The rank key read for the crisp number of a finite double. -/
theorem crisp_rank_used {a : Bool} {k : Nat} (h : F64.Representable k) :
    rank_used (crisp_number (F64.fin a k)) =
      (if 2 * k < 2 ^ 2098 then F64.fin a k else F64.inf a, F64.ofNat 1, F64.fin a k) := by
  rw [← crisp_key_general h, crisp_number_eq]
  rfl

theorem crisp_rank_noNaN (a : Bool) (k : Nat) :
    NoNaN (if 2 * k < 2 ^ 2098 then F64.fin a k else F64.inf a, F64.ofNat 1, F64.fin a k) := by
  have n1 : (F64.ofNat 1).isNaN = false := by rw [F64.ofNat_one]; rfl
  refine ⟨?_, n1, rfl⟩
  split_ifs <;> rfl

/-- The rank order of the crisp numbers of two finite doubles is the order of
the doubles. -/
theorem crisp_op_lt_iff {v w : F64} (hv : v.IsDouble) (hw : w.IsDouble)
    (fv : v.isFinite = true) (fw : w.isFinite = true) :
    op_lt (crisp_number v) (crisp_number w) = true ↔ F64.lt v w = true := by
  cases v with
  | nan => simp [F64.isFinite] at fv
  | inf a => simp [F64.isFinite] at fv
  | fin a j =>
    cases w with
    | nan => simp [F64.isFinite] at fw
    | inf b => simp [F64.isFinite] at fw
    | fin b k =>
      have uv := crisp_rank_used (a := a) hv
      have uw := crisp_rank_used (a := b) hw
      rw [op_lt_iff_lex3 (by rw [uv]; exact crisp_rank_noNaN a j)
        (by rw [uw]; exact crisp_rank_noNaN b k), uv, uw, crisp_key_order]
      simp [F64.lt]

end Dbl

/-! ## Addition and subtraction on doubles -/

namespace F64

theorem add_finite_left {x y : F64} (h : (add x y).isFinite = true) : x.isFinite = true := by
  cases x with
  | nan => simp [add, isFinite] at h
  | inf a =>
    cases y with
    | nan => simp [add, isFinite] at h
    | inf b => by_cases e : a = b <;> simp [add, isFinite, e] at h
    | fin b k => simp [add, isFinite] at h
  | fin a j => rfl

theorem add_finite_right {x y : F64} (h : (add x y).isFinite = true) : y.isFinite = true := by
  cases y with
  | nan => cases x <;> simp [add, isFinite] at h
  | inf b =>
    cases x with
    | nan => simp [add, isFinite] at h
    | inf a => by_cases e : a = b <;> simp [add, isFinite, e] at h
    | fin a j => simp [add, isFinite] at h
  | fin b k => rfl

theorem neg_finite {y : F64} (h : (neg y).isFinite = true) : y.isFinite = true := by
  cases y with
  | nan => simp [neg, isFinite] at h
  | inf b => simp [neg, isFinite] at h
  | fin b k => rfl

theorem sub_finite_left {x y : F64} (h : (sub x y).isFinite = true) : x.isFinite = true :=
  add_finite_left h

theorem sub_finite_right {x y : F64} (h : (sub x y).isFinite = true) : y.isFinite = true :=
  neg_finite (add_finite_right h)

end F64

namespace Dbl

end Dbl

/-! ## The program on doubles: translation by a crisp number -/

namespace F64

end F64

namespace Dbl

end Dbl

/-! ## The program on doubles: the running sums -/

namespace F64

theorem eq_units {x y : F64} (h : eq x y = true) : x.units = y.units := by
  cases x with
  | nan => simp [eq] at h
  | inf a => cases y <;> simp [eq, units] at h ⊢
  | fin a j => cases y <;> simp [eq, units] at h ⊢; exact h

end F64

namespace Dbl

theorem dbl_insert_perm (v : TriFuzzyNum F64) (xs : List (TriFuzzyNum F64)) :
    (multiset_insert v xs).Perm (v :: xs) := by
  induction xs with
  | nil => exact List.Perm.refl _
  | cons x xs ih =>
    unfold multiset_insert
    split
    · exact List.Perm.refl _
    · exact (List.Perm.cons x ih).trans (List.Perm.swap v x xs)

theorem dbl_insert_sum (f : TriFuzzyNum F64 → Int) (v : TriFuzzyNum F64)
    (xs : List (TriFuzzyNum F64)) :
    ((multiset_insert v xs).map f).sum = f v + (xs.map f).sum := by
  rw [((dbl_insert_perm v xs).map f).sum_eq]
  simp

theorem dbl_sum_filter_split (f : TriFuzzyNum F64 → Int) (p : TriFuzzyNum F64 → Bool) (c : Int)
    (xs : List (TriFuzzyNum F64)) (h : ∀ x ∈ xs, p x = true → f x = c) :
    (xs.map f).sum =
      ((xs.filter (fun x => !(p x))).map f).sum + ((xs.filter p).length : Int) * c := by
  induction xs with
  | nil => simp
  | cons x xs ih =>
    have ih1 := ih (fun y hy => h y (List.mem_cons_of_mem x hy))
    by_cases hp : p x = true
    · have hx := h x (List.mem_cons_self x xs) hp
      simp [List.filter_cons, hp, ih1, hx]
      ring
    · simp [List.filter_cons, hp, ih1]
      ring

theorem op_eq_units {x v : TriFuzzyNum F64} (h : op_eq x v = true) :
    x.l.units = v.l.units ∧ x.m.units = v.m.units ∧ x.u.units = v.u.units := by
  unfold op_eq at h
  simp only [Bool.and_eq_true] at h
  exact ⟨F64.eq_units h.1.1, F64.eq_units h.1.2, F64.eq_units h.2⟩

end Dbl

/-! ## The program on doubles: the arithmetic mean -/

namespace Dbl

end Dbl

/-! ## The claims settled on doubles -/

/-! ## The program on doubles: rank keys that collide -/

theorem dbl_collision_not_equal :
    Dbl.op_eq (Dbl.new (F64.ofNat 0) (F64.ofNat 0) (F64.ofNat 1000000000))
      (Dbl.new (F64.ofNat 0) (F64.ofNat 0) (F64.ofNat 1000000001)) = false := by
  decide!

theorem dbl_collision_same_key :
    (Dbl.compute_rank (Dbl.new (F64.ofNat 0) (F64.ofNat 0) (F64.ofNat 1000000000))).rank =
      (Dbl.compute_rank (Dbl.new (F64.ofNat 0) (F64.ofNat 0) (F64.ofNat 1000000001))).rank := by
  decide!

theorem dbl_collision_equivalent :
    (Dbl.op_spaceship (Dbl.new (F64.ofNat 0) (F64.ofNat 0) (F64.ofNat 1000000000))
      (Dbl.new (F64.ofNat 0) (F64.ofNat 0) (F64.ofNat 1000000001))).1 =
      PartialOrdering.equivalent := by
  decide!

/-- C3: on doubles the values `a = (0, 0, 1e9)` and `b = (0, 0, 1e9 + 1)` have
different raw components (`a == b` is false) and the same rank key computed by
`compute_rank`, so `a <=> b` reports them equivalent: neither `a < b` nor
`a > b`. -/
theorem distinct_values_share_a_rank_key :
    ∃ a b : TriFuzzyNum F64,
      a = Dbl.new (F64.ofNat 0) (F64.ofNat 0) (F64.ofNat 1000000000) ∧
      b = Dbl.new (F64.ofNat 0) (F64.ofNat 0) (F64.ofNat 1000000001) ∧
      Dbl.op_eq a b = false ∧
      (Dbl.compute_rank a).rank = (Dbl.compute_rank b).rank ∧
      (Dbl.op_spaceship a b).1 = PartialOrdering.equivalent ∧
      Dbl.op_lt a b = false ∧ Dbl.op_gt a b = false := by
  refine ⟨_, _, rfl, rfl, dbl_collision_not_equal, dbl_collision_same_key,
    dbl_collision_equivalent, ?_, ?_⟩
  · unfold Dbl.op_lt
    rw [dbl_collision_equivalent]
    rfl
  · unfold Dbl.op_gt
    rw [dbl_collision_equivalent]
    rfl

theorem dbl_rounded_sums_set :
    (Dbl.remove
      (Dbl.insert (Dbl.insert Dbl.empty (Dbl.crisp_number (F64.ofNat (10 ^ 16))))
        (Dbl.crisp_number (F64.ofNat 1)))
      (Dbl.crisp_number (F64.ofNat (10 ^ 16)))).set.map
        (fun x => (Dbl.lower_value x, Dbl.modal_value x, Dbl.upper_value x)) =
      [(F64.ofNat 1, F64.ofNat 1, F64.ofNat 1)] := by
  decide!

theorem dbl_rounded_sums_sums :
    ((Dbl.remove
      (Dbl.insert (Dbl.insert Dbl.empty (Dbl.crisp_number (F64.ofNat (10 ^ 16))))
        (Dbl.crisp_number (F64.ofNat 1)))
      (Dbl.crisp_number (F64.ofNat (10 ^ 16)))).sum_l,
     (Dbl.remove
      (Dbl.insert (Dbl.insert Dbl.empty (Dbl.crisp_number (F64.ofNat (10 ^ 16))))
        (Dbl.crisp_number (F64.ofNat 1)))
      (Dbl.crisp_number (F64.ofNat (10 ^ 16)))).sum_m,
     (Dbl.remove
      (Dbl.insert (Dbl.insert Dbl.empty (Dbl.crisp_number (F64.ofNat (10 ^ 16))))
        (Dbl.crisp_number (F64.ofNat 1)))
      (Dbl.crisp_number (F64.ofNat (10 ^ 16)))).sum_u) =
      (F64.ofNat 0, F64.ofNat 0, F64.ofNat 0) := by
  decide!

/-- C1, the counterexample: on doubles, after `insert((1e16, 1e16, 1e16))`,
`insert((1, 1, 1))` and `remove((1e16, 1e16, 1e16))` on the empty set the
multiset holds `(1, 1, 1)` alone while the three running sums are 0, because
`1e16 + 1` rounds to `1e16`. -/
theorem running_sums_lose_a_rounded_term :
    (Dbl.remove
      (Dbl.insert (Dbl.insert Dbl.empty (Dbl.crisp_number (F64.ofNat (10 ^ 16))))
        (Dbl.crisp_number (F64.ofNat 1)))
      (Dbl.crisp_number (F64.ofNat (10 ^ 16)))).set.map
        (fun x => (Dbl.lower_value x, Dbl.modal_value x, Dbl.upper_value x)) =
      [(F64.ofNat 1, F64.ofNat 1, F64.ofNat 1)] ∧
    ((Dbl.remove
      (Dbl.insert (Dbl.insert Dbl.empty (Dbl.crisp_number (F64.ofNat (10 ^ 16))))
        (Dbl.crisp_number (F64.ofNat 1)))
      (Dbl.crisp_number (F64.ofNat (10 ^ 16)))).sum_l,
     (Dbl.remove
      (Dbl.insert (Dbl.insert Dbl.empty (Dbl.crisp_number (F64.ofNat (10 ^ 16))))
        (Dbl.crisp_number (F64.ofNat 1)))
      (Dbl.crisp_number (F64.ofNat (10 ^ 16)))).sum_m,
     (Dbl.remove
      (Dbl.insert (Dbl.insert Dbl.empty (Dbl.crisp_number (F64.ofNat (10 ^ 16))))
        (Dbl.crisp_number (F64.ofNat 1)))
      (Dbl.crisp_number (F64.ofNat (10 ^ 16)))).sum_u) =
      (F64.ofNat 0, F64.ofNat 0, F64.ofNat 0) :=
  ⟨dbl_rounded_sums_set, dbl_rounded_sums_sums⟩

/-- C1, amended: on doubles, for every set obtained from the empty one by
`insert` and `remove` calls in which no update of a running sum is rounded
and `remove` erases only elements raw-equal to its argument, the three running
sums are finite and equal, as exact numbers, the sums of the lower, modal and
upper values of the elements held, each occurrence counted once. -/
theorem running_sums_are_exact_without_rounding (s : TriFuzzyNumSet F64)
    (h : Dbl.ExactRun s) :
    (s.sum_l.isFinite = true ∧ s.sum_m.isFinite = true ∧ s.sum_u.isFinite = true) ∧
    s.sum_l.units = (s.set.map (fun x => (Dbl.lower_value x).units)).sum ∧
    s.sum_m.units = (s.set.map (fun x => (Dbl.modal_value x).units)).sum ∧
    s.sum_u.units = (s.set.map (fun x => (Dbl.upper_value x).units)).sum := by
  induction h with
  | empty =>
    unfold Dbl.empty
    rw [F64.ofNat_zero]
    exact ⟨⟨rfl, rfl, rfl⟩, rfl, rfl, rfl⟩
  | @insert s num _ hl hm hu ih =>
    obtain ⟨_, il, im, iu⟩ := ih
    refine ⟨⟨hl.1, hm.1, hu.1⟩, ?_, ?_, ?_⟩
    · show (F64.add s.sum_l (Dbl.lower_value num)).units = _
      rw [hl.2, il]
      exact ((Dbl.dbl_insert_sum (fun x => (Dbl.lower_value x).units) num s.set).trans
        (add_comm _ _)).symm
    · show (F64.add s.sum_m (Dbl.modal_value num)).units = _
      rw [hm.2, im]
      exact ((Dbl.dbl_insert_sum (fun x => (Dbl.modal_value x).units) num s.set).trans
        (add_comm _ _)).symm
    · show (F64.add s.sum_u (Dbl.upper_value num)).units = _
      rw [hu.2, iu]
      exact ((Dbl.dbl_insert_sum (fun x => (Dbl.upper_value x).units) num s.set).trans
        (add_comm _ _)).symm
  | @remove s num _ hraw hl hm hu ih =>
    obtain ⟨_, il, im, iu⟩ := ih
    refine ⟨⟨hl.1, hm.1, hu.1⟩, ?_, ?_, ?_⟩
    · show (F64.sub s.sum_l (F64.mul (F64.ofNat (Dbl.multiset_erase num s.set).2)
        (Dbl.lower_value num))).units = _
      rw [hl.2, il, Dbl.dbl_sum_filter_split (fun x => (Dbl.lower_value x).units)
        (fun x => Dbl.multiset_equiv x num) (Dbl.lower_value num).units s.set
        (fun x hx hp => (Dbl.op_eq_units (hraw x hx hp)).1)]
      show _ = ((s.set.filter (fun x => !(Dbl.multiset_equiv x num))).map
        (fun x => (Dbl.lower_value x).units)).sum
      unfold Dbl.multiset_erase
      simp
    · show (F64.sub s.sum_m (F64.mul (F64.ofNat (Dbl.multiset_erase num s.set).2)
        (Dbl.modal_value num))).units = _
      rw [hm.2, im, Dbl.dbl_sum_filter_split (fun x => (Dbl.modal_value x).units)
        (fun x => Dbl.multiset_equiv x num) (Dbl.modal_value num).units s.set
        (fun x hx hp => (Dbl.op_eq_units (hraw x hx hp)).2.1)]
      show _ = ((s.set.filter (fun x => !(Dbl.multiset_equiv x num))).map
        (fun x => (Dbl.modal_value x).units)).sum
      unfold Dbl.multiset_erase
      simp
    · show (F64.sub s.sum_u (F64.mul (F64.ofNat (Dbl.multiset_erase num s.set).2)
        (Dbl.upper_value num))).units = _
      rw [hu.2, iu, Dbl.dbl_sum_filter_split (fun x => (Dbl.upper_value x).units)
        (fun x => Dbl.multiset_equiv x num) (Dbl.upper_value num).units s.set
        (fun x hx hp => (Dbl.op_eq_units (hraw x hx hp)).2.2)]
      show _ = ((s.set.filter (fun x => !(Dbl.multiset_equiv x num))).map
        (fun x => (Dbl.upper_value x).units)).sum
      unfold Dbl.multiset_erase
      simp

theorem dbl_exact_run_example :
    Dbl.ExactRun
      (Dbl.remove
        (Dbl.insert
          (Dbl.insert (Dbl.insert Dbl.empty (Dbl.new (F64.ofNat 1) (F64.ofNat 2) (F64.ofNat 3)))
            (Dbl.new (F64.ofNat 4) (F64.ofNat 5) (F64.ofNat 6)))
          (Dbl.new (F64.ofNat 1) (F64.ofNat 2) (F64.ofNat 3)))
        (Dbl.new (F64.ofNat 1) (F64.ofNat 2) (F64.ofNat 3))) :=
  Dbl.ExactRun.remove _
    (Dbl.ExactRun.insert _
      (Dbl.ExactRun.insert _
        (Dbl.ExactRun.insert _ Dbl.ExactRun.empty (by decide!) (by decide!) (by decide!))
        (by decide!) (by decide!) (by decide!))
      (by decide!) (by decide!) (by decide!))
    (by decide!) (by decide!) (by decide!) (by decide!)

/-- Witness for C1 amended: `(1, 2, 3)`, `(4, 5, 6)` and `(1, 2, 3)` inserted
into the empty set, then `remove((1, 2, 3))`. -/
theorem running_sums_are_exact_without_rounding_witness :
    Dbl.ExactRun
      (Dbl.remove
        (Dbl.insert
          (Dbl.insert (Dbl.insert Dbl.empty (Dbl.new (F64.ofNat 1) (F64.ofNat 2) (F64.ofNat 3)))
            (Dbl.new (F64.ofNat 4) (F64.ofNat 5) (F64.ofNat 6)))
          (Dbl.new (F64.ofNat 1) (F64.ofNat 2) (F64.ofNat 3)))
        (Dbl.new (F64.ofNat 1) (F64.ofNat 2) (F64.ofNat 3))) ∧
    (Dbl.remove
        (Dbl.insert
          (Dbl.insert (Dbl.insert Dbl.empty (Dbl.new (F64.ofNat 1) (F64.ofNat 2) (F64.ofNat 3)))
            (Dbl.new (F64.ofNat 4) (F64.ofNat 5) (F64.ofNat 6)))
          (Dbl.new (F64.ofNat 1) (F64.ofNat 2) (F64.ofNat 3)))
        (Dbl.new (F64.ofNat 1) (F64.ofNat 2) (F64.ofNat 3))).sum_u.units =
      ((Dbl.remove
        (Dbl.insert
          (Dbl.insert (Dbl.insert Dbl.empty (Dbl.new (F64.ofNat 1) (F64.ofNat 2) (F64.ofNat 3)))
            (Dbl.new (F64.ofNat 4) (F64.ofNat 5) (F64.ofNat 6)))
          (Dbl.new (F64.ofNat 1) (F64.ofNat 2) (F64.ofNat 3)))
        (Dbl.new (F64.ofNat 1) (F64.ofNat 2) (F64.ofNat 3))).set.map
          (fun x => (Dbl.upper_value x).units)).sum :=
  ⟨dbl_exact_run_example,
    (running_sums_are_exact_without_rounding _ dbl_exact_run_example).2.2.2⟩

/-! ## The program on doubles: `remove` of a value that is not held -/

theorem dbl_remove_before :
    (Dbl.of_list [Dbl.new (F64.ofNat 0) (F64.ofNat 0) (F64.ofNat 1000000000),
        Dbl.new (F64.ofNat 5) (F64.ofNat 5) (F64.ofNat 5)]).set.map (fun x => (x.l, x.m, x.u)) =
      [(F64.ofNat 0, F64.ofNat 0, F64.ofNat 1000000000),
        (F64.ofNat 5, F64.ofNat 5, F64.ofNat 5)] := by
  decide!

theorem dbl_remove_before_sums :
    ((Dbl.of_list [Dbl.new (F64.ofNat 0) (F64.ofNat 0) (F64.ofNat 1000000000),
        Dbl.new (F64.ofNat 5) (F64.ofNat 5) (F64.ofNat 5)]).sum_l,
      (Dbl.of_list [Dbl.new (F64.ofNat 0) (F64.ofNat 0) (F64.ofNat 1000000000),
        Dbl.new (F64.ofNat 5) (F64.ofNat 5) (F64.ofNat 5)]).sum_m,
      (Dbl.of_list [Dbl.new (F64.ofNat 0) (F64.ofNat 0) (F64.ofNat 1000000000),
        Dbl.new (F64.ofNat 5) (F64.ofNat 5) (F64.ofNat 5)]).sum_u) =
      (F64.ofNat 5, F64.ofNat 5, F64.ofNat 1000000005) := by
  decide!

theorem dbl_remove_after :
    (Dbl.remove (Dbl.of_list [Dbl.new (F64.ofNat 0) (F64.ofNat 0) (F64.ofNat 1000000000),
        Dbl.new (F64.ofNat 5) (F64.ofNat 5) (F64.ofNat 5)])
      (Dbl.new (F64.ofNat 0) (F64.ofNat 0) (F64.ofNat 1000000001))).set.map (fun x => (x.l, x.m, x.u)) =
      [(F64.ofNat 5, F64.ofNat 5, F64.ofNat 5)] := by
  decide!

theorem dbl_remove_after_sums :
    ((Dbl.remove (Dbl.of_list [Dbl.new (F64.ofNat 0) (F64.ofNat 0) (F64.ofNat 1000000000),
        Dbl.new (F64.ofNat 5) (F64.ofNat 5) (F64.ofNat 5)])
      (Dbl.new (F64.ofNat 0) (F64.ofNat 0) (F64.ofNat 1000000001))).sum_l,
      (Dbl.remove (Dbl.of_list [Dbl.new (F64.ofNat 0) (F64.ofNat 0) (F64.ofNat 1000000000),
        Dbl.new (F64.ofNat 5) (F64.ofNat 5) (F64.ofNat 5)])
      (Dbl.new (F64.ofNat 0) (F64.ofNat 0) (F64.ofNat 1000000001))).sum_m,
      (Dbl.remove (Dbl.of_list [Dbl.new (F64.ofNat 0) (F64.ofNat 0) (F64.ofNat 1000000000),
        Dbl.new (F64.ofNat 5) (F64.ofNat 5) (F64.ofNat 5)])
      (Dbl.new (F64.ofNat 0) (F64.ofNat 0) (F64.ofNat 1000000001))).sum_u) =
      (F64.ofNat 5, F64.ofNat 5, F64.ofNat 4) := by
  decide!

theorem dbl_remove_thrice :
    (Dbl.insert (Dbl.insert (Dbl.insert Dbl.empty (Dbl.new (F64.ofNat 1) (F64.ofNat 2) (F64.ofNat 3)))
        (Dbl.new (F64.ofNat 1) (F64.ofNat 2) (F64.ofNat 3))) (Dbl.new (F64.ofNat 1) (F64.ofNat 2) (F64.ofNat 3))).set.length = 3 ∧
    ((Dbl.insert (Dbl.insert (Dbl.insert Dbl.empty (Dbl.new (F64.ofNat 1) (F64.ofNat 2) (F64.ofNat 3)))
        (Dbl.new (F64.ofNat 1) (F64.ofNat 2) (F64.ofNat 3))) (Dbl.new (F64.ofNat 1) (F64.ofNat 2) (F64.ofNat 3))).sum_l,
      (Dbl.insert (Dbl.insert (Dbl.insert Dbl.empty (Dbl.new (F64.ofNat 1) (F64.ofNat 2) (F64.ofNat 3)))
        (Dbl.new (F64.ofNat 1) (F64.ofNat 2) (F64.ofNat 3))) (Dbl.new (F64.ofNat 1) (F64.ofNat 2) (F64.ofNat 3))).sum_m,
      (Dbl.insert (Dbl.insert (Dbl.insert Dbl.empty (Dbl.new (F64.ofNat 1) (F64.ofNat 2) (F64.ofNat 3)))
        (Dbl.new (F64.ofNat 1) (F64.ofNat 2) (F64.ofNat 3))) (Dbl.new (F64.ofNat 1) (F64.ofNat 2) (F64.ofNat 3))).sum_u) = (F64.ofNat 3, F64.ofNat 6, F64.ofNat 9) ∧
    (Dbl.remove
      (Dbl.insert (Dbl.insert (Dbl.insert Dbl.empty (Dbl.new (F64.ofNat 1) (F64.ofNat 2) (F64.ofNat 3)))
        (Dbl.new (F64.ofNat 1) (F64.ofNat 2) (F64.ofNat 3))) (Dbl.new (F64.ofNat 1) (F64.ofNat 2) (F64.ofNat 3)))
      (Dbl.new (F64.ofNat 1) (F64.ofNat 2) (F64.ofNat 3))).set.length = 0 ∧
    ((Dbl.remove
      (Dbl.insert (Dbl.insert (Dbl.insert Dbl.empty (Dbl.new (F64.ofNat 1) (F64.ofNat 2) (F64.ofNat 3)))
        (Dbl.new (F64.ofNat 1) (F64.ofNat 2) (F64.ofNat 3))) (Dbl.new (F64.ofNat 1) (F64.ofNat 2) (F64.ofNat 3)))
      (Dbl.new (F64.ofNat 1) (F64.ofNat 2) (F64.ofNat 3))).sum_l,
      (Dbl.remove
      (Dbl.insert (Dbl.insert (Dbl.insert Dbl.empty (Dbl.new (F64.ofNat 1) (F64.ofNat 2) (F64.ofNat 3)))
        (Dbl.new (F64.ofNat 1) (F64.ofNat 2) (F64.ofNat 3))) (Dbl.new (F64.ofNat 1) (F64.ofNat 2) (F64.ofNat 3)))
      (Dbl.new (F64.ofNat 1) (F64.ofNat 2) (F64.ofNat 3))).sum_m,
      (Dbl.remove
      (Dbl.insert (Dbl.insert (Dbl.insert Dbl.empty (Dbl.new (F64.ofNat 1) (F64.ofNat 2) (F64.ofNat 3)))
        (Dbl.new (F64.ofNat 1) (F64.ofNat 2) (F64.ofNat 3))) (Dbl.new (F64.ofNat 1) (F64.ofNat 2) (F64.ofNat 3)))
      (Dbl.new (F64.ofNat 1) (F64.ofNat 2) (F64.ofNat 3))).sum_u) =
      (F64.ofNat 0, F64.ofNat 0, F64.ofNat 0) := by
  decide!

/-- C2, the failing input: on doubles the set `{(0, 0, 1e9), (5, 5, 5)}` holds
no element raw-equal to `v = (0, 0, 1e9 + 1)`, yet `remove(v)` deletes
`(0, 0, 1e9)`, whose rank key is that of `v`, and subtracts the components of
`v`: the set is left holding `(5, 5, 5)` alone with the sums `(5, 5, 4)`.
(Three inserts of `(1, 2, 3)` and one `remove((1, 2, 3))` do leave no element
and the sums `(0, 0, 0)`.) -/
theorem remove_deletes_rank_equivalent_value :
    (Dbl.of_list [Dbl.new (F64.ofNat 0) (F64.ofNat 0) (F64.ofNat 1000000000),
        Dbl.new (F64.ofNat 5) (F64.ofNat 5) (F64.ofNat 5)]).set.map (fun x => (x.l, x.m, x.u)) =
      [(F64.ofNat 0, F64.ofNat 0, F64.ofNat 1000000000),
        (F64.ofNat 5, F64.ofNat 5, F64.ofNat 5)] ∧
    Dbl.op_eq (Dbl.new (F64.ofNat 0) (F64.ofNat 0) (F64.ofNat 1000000000))
      (Dbl.new (F64.ofNat 0) (F64.ofNat 0) (F64.ofNat 1000000001)) = false ∧
    (Dbl.remove (Dbl.of_list [Dbl.new (F64.ofNat 0) (F64.ofNat 0) (F64.ofNat 1000000000),
        Dbl.new (F64.ofNat 5) (F64.ofNat 5) (F64.ofNat 5)])
      (Dbl.new (F64.ofNat 0) (F64.ofNat 0) (F64.ofNat 1000000001))).set.map (fun x => (x.l, x.m, x.u)) =
      [(F64.ofNat 5, F64.ofNat 5, F64.ofNat 5)] ∧
    ((Dbl.remove (Dbl.of_list [Dbl.new (F64.ofNat 0) (F64.ofNat 0) (F64.ofNat 1000000000),
        Dbl.new (F64.ofNat 5) (F64.ofNat 5) (F64.ofNat 5)])
      (Dbl.new (F64.ofNat 0) (F64.ofNat 0) (F64.ofNat 1000000001))).sum_l,
      (Dbl.remove (Dbl.of_list [Dbl.new (F64.ofNat 0) (F64.ofNat 0) (F64.ofNat 1000000000),
        Dbl.new (F64.ofNat 5) (F64.ofNat 5) (F64.ofNat 5)])
      (Dbl.new (F64.ofNat 0) (F64.ofNat 0) (F64.ofNat 1000000001))).sum_m,
      (Dbl.remove (Dbl.of_list [Dbl.new (F64.ofNat 0) (F64.ofNat 0) (F64.ofNat 1000000000),
        Dbl.new (F64.ofNat 5) (F64.ofNat 5) (F64.ofNat 5)])
      (Dbl.new (F64.ofNat 0) (F64.ofNat 0) (F64.ofNat 1000000001))).sum_u) =
      (F64.ofNat 5, F64.ofNat 5, F64.ofNat 4) ∧
    (Dbl.remove
      (Dbl.insert (Dbl.insert (Dbl.insert Dbl.empty (Dbl.new (F64.ofNat 1) (F64.ofNat 2) (F64.ofNat 3)))
        (Dbl.new (F64.ofNat 1) (F64.ofNat 2) (F64.ofNat 3))) (Dbl.new (F64.ofNat 1) (F64.ofNat 2) (F64.ofNat 3)))
      (Dbl.new (F64.ofNat 1) (F64.ofNat 2) (F64.ofNat 3))).set.length = 0 ∧
    ((Dbl.remove
      (Dbl.insert (Dbl.insert (Dbl.insert Dbl.empty (Dbl.new (F64.ofNat 1) (F64.ofNat 2) (F64.ofNat 3)))
        (Dbl.new (F64.ofNat 1) (F64.ofNat 2) (F64.ofNat 3))) (Dbl.new (F64.ofNat 1) (F64.ofNat 2) (F64.ofNat 3)))
      (Dbl.new (F64.ofNat 1) (F64.ofNat 2) (F64.ofNat 3))).sum_l,
      (Dbl.remove
      (Dbl.insert (Dbl.insert (Dbl.insert Dbl.empty (Dbl.new (F64.ofNat 1) (F64.ofNat 2) (F64.ofNat 3)))
        (Dbl.new (F64.ofNat 1) (F64.ofNat 2) (F64.ofNat 3))) (Dbl.new (F64.ofNat 1) (F64.ofNat 2) (F64.ofNat 3)))
      (Dbl.new (F64.ofNat 1) (F64.ofNat 2) (F64.ofNat 3))).sum_m,
      (Dbl.remove
      (Dbl.insert (Dbl.insert (Dbl.insert Dbl.empty (Dbl.new (F64.ofNat 1) (F64.ofNat 2) (F64.ofNat 3)))
        (Dbl.new (F64.ofNat 1) (F64.ofNat 2) (F64.ofNat 3))) (Dbl.new (F64.ofNat 1) (F64.ofNat 2) (F64.ofNat 3)))
      (Dbl.new (F64.ofNat 1) (F64.ofNat 2) (F64.ofNat 3))).sum_u) =
      (F64.ofNat 0, F64.ofNat 0, F64.ofNat 0) :=
  ⟨dbl_remove_before, dbl_collision_not_equal, dbl_remove_after, dbl_remove_after_sums,
    dbl_remove_thrice.2.2⟩

theorem dbl_remove_absent_before :
    (∀ x ∈ (Dbl.of_list [Dbl.new (F64.ofNat 0) (F64.ofNat 0) (F64.ofNat 1000000000)]).set,
      Dbl.op_eq x (Dbl.new (F64.ofNat 0) (F64.ofNat 0) (F64.ofNat 1000000001)) = false) ∧
    (Dbl.of_list [Dbl.new (F64.ofNat 0) (F64.ofNat 0) (F64.ofNat 1000000000)]).set.length = 1 ∧
    ((Dbl.of_list [Dbl.new (F64.ofNat 0) (F64.ofNat 0) (F64.ofNat 1000000000)]).sum_l,
      (Dbl.of_list [Dbl.new (F64.ofNat 0) (F64.ofNat 0) (F64.ofNat 1000000000)]).sum_m,
      (Dbl.of_list [Dbl.new (F64.ofNat 0) (F64.ofNat 0) (F64.ofNat 1000000000)]).sum_u) =
      (F64.ofNat 0, F64.ofNat 0, F64.ofNat 1000000000) := by
  decide!

theorem dbl_remove_absent_after :
    (Dbl.remove (Dbl.of_list [Dbl.new (F64.ofNat 0) (F64.ofNat 0) (F64.ofNat 1000000000)])
      (Dbl.new (F64.ofNat 0) (F64.ofNat 0) (F64.ofNat 1000000001))).set.length = 0 ∧
    ((Dbl.remove (Dbl.of_list [Dbl.new (F64.ofNat 0) (F64.ofNat 0) (F64.ofNat 1000000000)])
      (Dbl.new (F64.ofNat 0) (F64.ofNat 0) (F64.ofNat 1000000001))).sum_l,
      (Dbl.remove (Dbl.of_list [Dbl.new (F64.ofNat 0) (F64.ofNat 0) (F64.ofNat 1000000000)])
      (Dbl.new (F64.ofNat 0) (F64.ofNat 0) (F64.ofNat 1000000001))).sum_m,
      (Dbl.remove (Dbl.of_list [Dbl.new (F64.ofNat 0) (F64.ofNat 0) (F64.ofNat 1000000000)])
      (Dbl.new (F64.ofNat 0) (F64.ofNat 0) (F64.ofNat 1000000001))).sum_u) =
      (F64.ofNat 0, F64.ofNat 0, F64.neg (F64.ofNat 1)) := by
  decide!

/-- C9, the failing input: on doubles the set `{(0, 0, 1e9)}` holds no element
raw-equal to `v = (0, 0, 1e9 + 1)`, yet `remove(v)` empties it and leaves the
running sums at `(0, 0, -1)`. -/
theorem remove_absent_changes_the_set :
    ((∀ x ∈ (Dbl.of_list [Dbl.new (F64.ofNat 0) (F64.ofNat 0) (F64.ofNat 1000000000)]).set,
      Dbl.op_eq x (Dbl.new (F64.ofNat 0) (F64.ofNat 0) (F64.ofNat 1000000001)) = false) ∧
    (Dbl.of_list [Dbl.new (F64.ofNat 0) (F64.ofNat 0) (F64.ofNat 1000000000)]).set.length = 1 ∧
    ((Dbl.of_list [Dbl.new (F64.ofNat 0) (F64.ofNat 0) (F64.ofNat 1000000000)]).sum_l,
      (Dbl.of_list [Dbl.new (F64.ofNat 0) (F64.ofNat 0) (F64.ofNat 1000000000)]).sum_m,
      (Dbl.of_list [Dbl.new (F64.ofNat 0) (F64.ofNat 0) (F64.ofNat 1000000000)]).sum_u) =
      (F64.ofNat 0, F64.ofNat 0, F64.ofNat 1000000000)) ∧
    (Dbl.remove (Dbl.of_list [Dbl.new (F64.ofNat 0) (F64.ofNat 0) (F64.ofNat 1000000000)])
      (Dbl.new (F64.ofNat 0) (F64.ofNat 0) (F64.ofNat 1000000001))).set.length = 0 ∧
    ((Dbl.remove (Dbl.of_list [Dbl.new (F64.ofNat 0) (F64.ofNat 0) (F64.ofNat 1000000000)])
      (Dbl.new (F64.ofNat 0) (F64.ofNat 0) (F64.ofNat 1000000001))).sum_l,
      (Dbl.remove (Dbl.of_list [Dbl.new (F64.ofNat 0) (F64.ofNat 0) (F64.ofNat 1000000000)])
      (Dbl.new (F64.ofNat 0) (F64.ofNat 0) (F64.ofNat 1000000001))).sum_m,
      (Dbl.remove (Dbl.of_list [Dbl.new (F64.ofNat 0) (F64.ofNat 0) (F64.ofNat 1000000000)])
      (Dbl.new (F64.ofNat 0) (F64.ofNat 0) (F64.ofNat 1000000001))).sum_u) =
      (F64.ofNat 0, F64.ofNat 0, F64.neg (F64.ofNat 1)) :=
  ⟨dbl_remove_absent_before, dbl_remove_absent_after⟩

/-- C4, the failing input: on doubles `a = (0, 1e200, 2e200)`, built from
finite arguments, gets `(u - m)²` = inf, then `inf * 0` = NaN in `x`, so its
rank key starts with a NaN; `a <=> a` is unordered and none of `a < a`,
`a` equivalent to `a`, `a > a` holds. -/
theorem rank_order_unordered_on_overflow :
    Dbl.Finite (Dbl.new (F64.ofNat 0) (F64.ofNat (10 ^ 200)) (F64.ofNat (2 * 10 ^ 200))) ∧
    (Dbl.compute_rank
      (Dbl.new (F64.ofNat 0) (F64.ofNat (10 ^ 200)) (F64.ofNat (2 * 10 ^ 200)))).rank =
      (F64.nan, F64.ofNat 1, F64.ofNat (10 ^ 200)) ∧
    (Dbl.op_spaceship (Dbl.new (F64.ofNat 0) (F64.ofNat (10 ^ 200)) (F64.ofNat (2 * 10 ^ 200)))
      (Dbl.new (F64.ofNat 0) (F64.ofNat (10 ^ 200)) (F64.ofNat (2 * 10 ^ 200)))).1 =
      PartialOrdering.unordered ∧
    Dbl.op_lt (Dbl.new (F64.ofNat 0) (F64.ofNat (10 ^ 200)) (F64.ofNat (2 * 10 ^ 200)))
      (Dbl.new (F64.ofNat 0) (F64.ofNat (10 ^ 200)) (F64.ofNat (2 * 10 ^ 200))) = false ∧
    Dbl.op_gt (Dbl.new (F64.ofNat 0) (F64.ofNat (10 ^ 200)) (F64.ofNat (2 * 10 ^ 200)))
      (Dbl.new (F64.ofNat 0) (F64.ofNat (10 ^ 200)) (F64.ofNat (2 * 10 ^ 200))) = false := by
  decide!

/-- C4, amended: on doubles, for `x`, `y`, `z` whose rank keys hold no NaN the
rank comparison is a strict total order on the keys. Exactly one of `x < y`,
`x <=> y` equivalent, `y < x` holds; `x > y` is `y < x`; the result is never
unordered; `<` is transitive; and a comparison leaves the key either operand
is compared by as it was. -/
theorem rank_order_is_strict_total_without_nan (x y z : TriFuzzyNum F64)
    (hx : Dbl.NoNaN (Dbl.rank_used x)) (hy : Dbl.NoNaN (Dbl.rank_used y))
    (hz : Dbl.NoNaN (Dbl.rank_used z)) :
    ((Dbl.op_lt x y = true ∧ (Dbl.op_spaceship x y).1 ≠ .equivalent ∧ Dbl.op_lt y x = false) ∨
      (Dbl.op_lt x y = false ∧ (Dbl.op_spaceship x y).1 = .equivalent ∧
        Dbl.op_lt y x = false) ∨
      (Dbl.op_lt x y = false ∧ (Dbl.op_spaceship x y).1 ≠ .equivalent ∧
        Dbl.op_lt y x = true)) ∧
    Dbl.op_gt x y = Dbl.op_lt y x ∧
    (Dbl.op_spaceship x y).1 ≠ .unordered ∧
    (Dbl.op_lt x y = true → Dbl.op_lt y z = true → Dbl.op_lt x z = true) ∧
    Dbl.rank_used (Dbl.op_spaceship x y).2.1 = Dbl.rank_used x ∧
    Dbl.rank_used (Dbl.op_spaceship x y).2.2 = Dbl.rank_used y := by
  have hgt : Dbl.op_gt x y = Dbl.op_lt y x := by
    rw [Bool.eq_iff_iff, Dbl.op_gt_iff_lex3 hx hy, Dbl.op_lt_iff_lex3 hy hx]
  have hl := Dbl.tuple_cmp_less hx hy
  have hg := Dbl.tuple_cmp_greater hx hy
  have he := Dbl.tuple_cmp_equivalent hx hy
  have hno : (Dbl.op_spaceship x y).1 ≠ .unordered := by
    rw [Dbl.spaceship_result]
    intro hu
    rcases lex3_total (F64.pos3 (Dbl.rank_used x)) (F64.pos3 (Dbl.rank_used y)) with h | h | h
    · rw [hl.mpr h] at hu; exact PartialOrdering.noConfusion hu
    · rw [he.mpr h] at hu; exact PartialOrdering.noConfusion hu
    · rw [hg.mpr h] at hu; exact PartialOrdering.noConfusion hu
  refine ⟨?_, hgt, hno, ?_, Dbl.rank_used_stable x, Dbl.rank_used_stable y⟩
  · rw [← hgt]
    unfold Dbl.op_lt Dbl.op_gt
    revert hno
    cases (Dbl.op_spaceship x y).1 <;> simp
  · rw [Dbl.op_lt_iff_lex3 hx hy, Dbl.op_lt_iff_lex3 hy hz, Dbl.op_lt_iff_lex3 hx hz]
    exact lex3_trans

theorem dbl_crisp_order_example :
    Dbl.op_lt (Dbl.crisp_number (F64.ofNat 1)) (Dbl.crisp_number (F64.ofNat 2)) = true ∧
    Dbl.op_lt (Dbl.crisp_number (F64.ofNat 2)) (Dbl.crisp_number (F64.ofNat 3)) = true := by
  decide!

/-- Witness for C4 amended: the crisp numbers 1, 2 and 3, with `1 < 2`,
`2 < 3` and hence `1 < 3` in the rank order. -/
theorem rank_order_is_strict_total_without_nan_witness :
    Dbl.op_lt (Dbl.crisp_number (F64.ofNat 1)) (Dbl.crisp_number (F64.ofNat 2)) = true ∧
    Dbl.op_lt (Dbl.crisp_number (F64.ofNat 2)) (Dbl.crisp_number (F64.ofNat 3)) = true ∧
    Dbl.op_lt (Dbl.crisp_number (F64.ofNat 1)) (Dbl.crisp_number (F64.ofNat 3)) = true :=
  ⟨dbl_crisp_order_example.1, dbl_crisp_order_example.2,
    (rank_order_is_strict_total_without_nan _ _ _ (by decide!) (by decide!) (by decide!)).2.2.2.1
      dbl_crisp_order_example.1 dbl_crisp_order_example.2⟩

/-- C16, the failing input: on doubles the crisp number of `v = 1e308` gets
`x = (0 * v + v + v) / 2` with `v + v` = inf, so its rank key is
`(inf, 1, v)` and not `(v, 1, v)`. -/
theorem crisp_rank_key_overflows :
    (F64.ofNat (10 ^ 308)).isFinite = true ∧
    (Dbl.compute_rank (Dbl.crisp_number (F64.ofNat (10 ^ 308)))).rank =
      (F64.inf false, F64.ofNat 1, F64.ofNat (10 ^ 308)) ∧
    F64.eq (Dbl.compute_rank (Dbl.crisp_number (F64.ofNat (10 ^ 308)))).rank.1
      (F64.ofNat (10 ^ 308)) = false := by
  decide!

/-- C16, amended: on doubles, for every finite `v` whose double `v + v`
does not overflow the rank key of the crisp number `(v, v, v)` is `(v, 1, v)`,
and when `v + v` overflows it is `(v + v, 1, v)` with `v + v` an infinity; for
all finite `v` and `w`, overflow or not, `crisp(v) < crisp(w)` in the rank
order exactly when `v < w`, and the two are rank-equivalent exactly when
`v == w`. -/
theorem crisp_rank_order_on_finite_doubles (v w : F64) (hv : v.IsDouble) (hw : w.IsDouble)
    (fv : v.isFinite = true) (fw : w.isFinite = true) :
    ((F64.add v v).isFinite = true →
      (Dbl.compute_rank (Dbl.crisp_number v)).rank = (v, F64.ofNat 1, v)) ∧
    ((F64.add v v).isFinite = false →
      (Dbl.compute_rank (Dbl.crisp_number v)).rank = (F64.add v v, F64.ofNat 1, v) ∧
        (F64.add v v = F64.inf false ∨ F64.add v v = F64.inf true)) ∧
    (Dbl.op_lt (Dbl.crisp_number v) (Dbl.crisp_number w) = true ↔ F64.lt v w = true) ∧
    ((Dbl.op_spaceship (Dbl.crisp_number v) (Dbl.crisp_number w)).1 = .equivalent ↔
      F64.eq v w = true) := by
  cases v with
  | nan => simp [F64.isFinite] at fv
  | inf a => simp [F64.isFinite] at fv
  | fin a j =>
    cases w with
    | nan => simp [F64.isFinite] at fw
    | inf b => simp [F64.isFinite] at fw
    | fin b k =>
      have uv := Dbl.crisp_rank_used (a := a) hv
      have uw := Dbl.crisp_rank_used (a := b) hw
      have hnv := Dbl.crisp_rank_noNaN a j
      have hnw := Dbl.crisp_rank_noNaN b k
      refine ⟨fun hvv => Dbl.crisp_key hv hvv, fun hvv => Dbl.crisp_key_overflow hv hvv,
        Dbl.crisp_op_lt_iff hv hw fv fw, ?_⟩
      · rw [Dbl.spaceship_result, uv, uw, Dbl.tuple_cmp_equivalent hnv hnw]
        have hord := Dbl.crisp_key_order a b j k
        have hord2 := Dbl.crisp_key_order b a k j
        have htot := lex3_total
          (F64.pos3 (if 2 * j < 2 ^ 2098 then F64.fin a j else F64.inf a, F64.ofNat 1,
            F64.fin a j))
          (F64.pos3 (if 2 * k < 2 ^ 2098 then F64.fin b k else F64.inf b, F64.ofNat 1,
            F64.fin b k))
        simp only [F64.eq, decide_eq_true_eq]
        constructor
        · intro h
          rw [h] at hord
          have h1 : ¬ F64.signed a j < F64.signed b k := fun hlt => lex3_irrefl _ (hord.mpr hlt)
          rw [← h] at hord2
          have h2 : ¬ F64.signed b k < F64.signed a j := fun hlt => lex3_irrefl _ (hord2.mpr hlt)
          omega
        · intro h
          rcases htot with h1 | h1 | h1
          · have := hord.mp h1
            omega
          · exact h1
          · have := hord2.mp h1
            omega

/-- Witness for C16 amended: the crisp numbers of 3 and 7. -/
theorem crisp_rank_order_on_finite_doubles_witness :
    (Dbl.compute_rank (Dbl.crisp_number (F64.ofNat 3))).rank =
        (F64.ofNat 3, F64.ofNat 1, F64.ofNat 3) ∧
    (Dbl.op_lt (Dbl.crisp_number (F64.ofNat 3)) (Dbl.crisp_number (F64.ofNat 7)) = true ↔
      F64.lt (F64.ofNat 3) (F64.ofNat 7) = true) :=
  ⟨(crisp_rank_order_on_finite_doubles (F64.ofNat 3) (F64.ofNat 7) (by decide!) (by decide!)
      (by decide!) (by decide!)).1 (by decide!),
    (crisp_rank_order_on_finite_doubles (F64.ofNat 3) (F64.ofNat 7) (by decide!) (by decide!)
      (by decide!) (by decide!)).2.2.1⟩

end Fuzzy
